import Mathlib

/-!
Verification development for the XLS fuzzer sample runner
(`xls/fuzzer/sample_runner.py`).

The development shallowly embeds the pipeline orchestrator
(`SampleRunner.run_from_files`, `_run_function`, `_run_proc`) and the
result-comparison engine (`_compare_results_function`,
`_compare_results_proc`).  External tool invocations and library calls
(DSLX interpreter, IR conversion/optimization/codegen/simulation) are
modelled as oracles supplied in an environment record; everything the
Python file itself computes is translated directly.

Python `OrderedDict`s are embedded as insertion-ordered association
lists with pairwise-distinct keys (a dict can never hold a duplicate
key).  Python exceptions are embedded as an explicit `Exn` sum carried
in `Except`.
-/

/-- Modelled from the spec (§3): the `Value` type of
`xls.dslx.python.interp_value` is external to the repository.  A value is
a tagged, width-annotated datum: a scalar bit-vector (with a
signed/unsigned interpretation tag and its bit pattern), a tuple, or an
array of values. -/
inductive Value where
  | bits (signed : Bool) (width : Nat) (pattern : Nat)
  | tuple (elems : List Value)
  | array (elems : List Value)

mutual

/-- Structural (sign-sensitive) boolean equality of values, used only to
equip `Value` with decidable equality. -/
def Value.beq : Value → Value → Bool
  | .bits s w p, .bits s2 w2 p2 => s == s2 && w == w2 && p == p2
  | .tuple es, .tuple fs => Value.beqList es fs
  | .array es, .array fs => Value.beqList es fs
  | _, _ => false

/-- Elementwise structural boolean equality of value lists. -/
def Value.beqList : List Value → List Value → Bool
  | [], [] => true
  | a :: as, b :: bs => Value.beq a b && Value.beqList as bs
  | _, _ => false

end

mutual

theorem Value.eq_of_beq : ∀ a b : Value, Value.beq a b = true → a = b
  | .bits s w p, .bits s2 w2 p2, h => by
      simp only [Value.beq, Bool.and_eq_true, beq_iff_eq] at h
      rw [h.1.1, h.1.2, h.2]
  | .tuple es, .tuple fs, h =>
      congrArg Value.tuple (Value.eqList_of_beqList es fs (by simpa [Value.beq] using h))
  | .array es, .array fs, h =>
      congrArg Value.array (Value.eqList_of_beqList es fs (by simpa [Value.beq] using h))
  | .bits _ _ _, .tuple _, h => by simp [Value.beq] at h
  | .bits _ _ _, .array _, h => by simp [Value.beq] at h
  | .tuple _, .bits _ _ _, h => by simp [Value.beq] at h
  | .tuple _, .array _, h => by simp [Value.beq] at h
  | .array _, .bits _ _ _, h => by simp [Value.beq] at h
  | .array _, .tuple _, h => by simp [Value.beq] at h

theorem Value.eqList_of_beqList : ∀ as bs : List Value, Value.beqList as bs = true → as = bs
  | [], [], _ => rfl
  | a :: as, b :: bs, h => by
      simp only [Value.beqList, Bool.and_eq_true] at h
      rw [Value.eq_of_beq a b h.1, Value.eqList_of_beqList as bs h.2]
  | [], _ :: _, h => by simp [Value.beqList] at h
  | _ :: _, [], h => by simp [Value.beqList] at h

end

mutual

theorem Value.beq_refl : ∀ a : Value, Value.beq a a = true
  | .bits s w p => by simp [Value.beq]
  | .tuple es => by simpa [Value.beq] using Value.beqList_refl es
  | .array es => by simpa [Value.beq] using Value.beqList_refl es

theorem Value.beqList_refl : ∀ as : List Value, Value.beqList as as = true
  | [] => by simp [Value.beqList]
  | a :: as => by simp [Value.beqList, Value.beq_refl a, Value.beqList_refl as]

end

instance : DecidableEq Value := fun a b =>
  if h : Value.beq a b = true then .isTrue (Value.eq_of_beq a b h)
  else .isFalse fun he => h (he ▸ Value.beq_refl a)

mutual

/-- Modelled from the spec (§3): sign-agnostic equality, the embedding of
`a.eq(b).is_true()` — equality of the underlying bit pattern and width,
ignoring the signed/unsigned interpretation tag. -/
def valuesEqual : Value → Value → Bool
  | .bits _ w p, .bits _ w2 p2 => w == w2 && p == p2
  | .tuple es, .tuple fs => valuesEqualList es fs
  | .array es, .array fs => valuesEqualList es fs
  | _, _ => false

/-- Elementwise sign-agnostic equality of value lists. -/
def valuesEqualList : List Value → List Value → Bool
  | [], [] => true
  | a :: as, b :: bs => valuesEqual a b && valuesEqualList as bs
  | _, _ => false

end

mutual

theorem valuesEqual_refl : ∀ v : Value, valuesEqual v v = true
  | .bits s w p => by simp [valuesEqual]
  | .tuple es => by simpa [valuesEqual] using valuesEqualList_refl es
  | .array es => by simpa [valuesEqual] using valuesEqualList_refl es

theorem valuesEqualList_refl : ∀ l : List Value, valuesEqualList l l = true
  | [] => by simp [valuesEqualList]
  | a :: as => by
      simp [valuesEqualList, valuesEqual_refl a, valuesEqualList_refl as]

end

mutual

/-- Modelled from the spec (§6, glossary "canonical value form"): the
canonical textual rendering `to_ir_str`, e.g. `bits[32]:0x2a`. -/
def Value.toIrStr : Value → String
  | .bits _ w p =>
      let hex := String.mk (Nat.toDigits 16 p)
      s!"bits[{w}]:0x{hex}"
  | .tuple es =>
      let inner := String.intercalate ", " (Value.toIrStrList es)
      s!"({inner})"
  | .array es =>
      let inner := String.intercalate ", " (Value.toIrStrList es)
      s!"[{inner}]"

/-- Canonical rendering of each value in a list. -/
def Value.toIrStrList : List Value → List String
  | [] => []
  | v :: vs => Value.toIrStr v :: Value.toIrStrList vs

end

/-- Line-delimited rendering of a value sequence, the wire grammar of the
`.results` artifacts (one canonical literal per line). -/
def valuesToText (vs : List Value) : String :=
  String.intercalate "\n" (vs.map Value.toIrStr)

/-- Lexicographic comparison of character lists by code point, the order
Python `sorted` applies to strings. -/
def charsLe : List Char → List Char → Bool
  | [], _ => true
  | _ :: _, [] => false
  | a :: as, b :: bs =>
      if a.toNat < b.toNat then true
      else if b.toNat < a.toNat then false
      else charsLe as bs

/-- Lexicographic string order by code point (Python `sorted` on `str`). -/
def strLe (a b : String) : Bool :=
  charsLe a.data b.data

/-- The string order as a relation, for `List.insertionSort`. -/
def strLeRel (a b : String) : Prop :=
  strLe a b = true

instance : DecidableRel strLeRel := fun a b =>
  inferInstanceAs (Decidable (strLe a b = true))

theorem charsLe_total (as bs : List Char) : charsLe as bs = true ∨ charsLe bs as = true := by
  induction as generalizing bs with
  | nil => left; rfl
  | cons a as ih =>
      cases bs with
      | nil => right; rfl
      | cons b bs =>
          rcases Nat.lt_trichotomy a.toNat b.toNat with h | h | h
          · left; simp [charsLe, h]
          · have hab : ¬a.toNat < b.toNat := by omega
            have hba : ¬b.toNat < a.toNat := by omega
            rcases ih bs with h2 | h2
            · left; simp [charsLe, hab, hba, h2]
            · right; simp [charsLe, hab, hba, h2]
          · right; simp [charsLe, h]

theorem charsLe_antisymm : ∀ as bs : List Char,
    charsLe as bs = true → charsLe bs as = true → as = bs
  | [], [], _, _ => rfl
  | [], _ :: _, _, h2 => by simp [charsLe] at h2
  | _ :: _, [], h1, _ => by simp [charsLe] at h1
  | a :: as, b :: bs, h1, h2 => by
      by_cases hab : a.toNat < b.toNat
      · have : ¬b.toNat < a.toNat := by omega
        simp [charsLe, hab, this] at h2
      · by_cases hba : b.toNat < a.toNat
        · simp [charsLe, hab, hba] at h1
        · have hn : a.toNat = b.toNat := by omega
          have hc : a = b := Char.ext (UInt32.toNat.inj hn)
          simp only [charsLe, hab, hba, if_false] at h1 h2
          rw [hc, charsLe_antisymm as bs h1 h2]

theorem charsLe_trans : ∀ as bs cs : List Char,
    charsLe as bs = true → charsLe bs cs = true → charsLe as cs = true
  | [], _, _, _, _ => rfl
  | _ :: _, [], _, h1, _ => by simp [charsLe] at h1
  | _ :: _, _ :: _, [], _, h2 => by simp [charsLe] at h2
  | a :: as, b :: bs, c :: cs, h1, h2 => by
      by_cases hac : a.toNat < c.toNat
      · simp [charsLe, hac]
      · by_cases hab : a.toNat < b.toNat
        · by_cases hbc : b.toNat < c.toNat
          · omega
          · by_cases hcb : c.toNat < b.toNat
            · simp [charsLe, hbc, hcb] at h2
            · omega
        · by_cases hba : b.toNat < a.toNat
          · simp [charsLe, hab, hba] at h1
          · by_cases hbc : b.toNat < c.toNat
            · omega
            · by_cases hcb : c.toNat < b.toNat
              · simp [charsLe, hbc, hcb] at h2
              · have hca : ¬c.toNat < a.toNat := by omega
                simp only [charsLe, hab, hba, if_false] at h1
                simp only [charsLe, hbc, hcb, if_false] at h2
                simp only [charsLe, hac, hca, if_false]
                exact charsLe_trans as bs cs h1 h2

instance : IsTotal String strLeRel :=
  ⟨fun a b => charsLe_total a.data b.data⟩

instance : IsTrans String strLeRel :=
  ⟨fun a b c => charsLe_trans a.data b.data c.data⟩

instance : IsAntisymm String strLeRel :=
  ⟨fun a b h1 h2 => String.ext (charsLe_antisymm a.data b.data h1 h2)⟩

/-- An `ArgsBatch`: ordered sequence of argument vectors. -/
abbrev ArgsBatch := List (List Value)

/-- Function-mode result set: the insertion-ordered map from stage name to
the sequence of values that stage produced (`results` in
`_run_function`). -/
abbrev FnResults := List (String × List Value)

/-- Proc-mode per-stage result: insertion-ordered map from IR channel name
to the sequence of values on that channel. -/
abbrev ChannelMap := List (String × List Value)

/-- Proc-mode result set: insertion-ordered map from stage name to its
channel map (`results` in `_run_proc`). -/
abbrev ProcResults := List (String × ChannelMap)

/-- The distinct outcomes of `_compare_results_function`: the internal
`assert` on the first-inserted stage, Python `IndexError` from indexing a
too-short sequence while binning, and the two `SampleError` shapes
(length mismatch, element miscompare) with their structured payloads. -/
inductive FnError where
  | assertionError
  | indexError
  | lengthMismatch (reference : String) (refLen : Nat) (name : String) (len : Nat)
  | miscompare (i : Nat) (args : String) (referenceMatches : List String)
      (refResult : String) (valuesMatches : List String) (value : String)
deriving DecidableEq

/-- Truthiness of the optional args batch (`if args_batch:`). -/
def batchTruthy : Option ArgsBatch → Bool
  | some b => !b.isEmpty
  | none => false

/-- Index of the first mismatching pair under `valuesEqual`, together with
the two values there; the embedding of the scan
`for i in range(len(values)): if not values_equal(ref_result, values[i])`.
Both lists have equal length at every call site (checked just before). -/
def firstMismatch : List Value → List Value → Nat → Option (Nat × Value × Value)
  | r :: rs, v :: vs, i =>
      if valuesEqual r v then firstMismatch rs vs (i + 1) else some (i, r, v)
  | _, _, _ => none

/-- Stage-name group of `n for n, v in results.items() if values_equal(v[i], target)`,
sorted.  Callers guarantee `i` is in range for every stage. -/
def binMatches (results : FnResults) (i : Nat) (target : Value) : List String :=
  List.insertionSort strLeRel
    ((results.filter fun nv => valuesEqual (nv.2.getD i (Value.bits false 0 0)) target).map
      Prod.fst)

/-- The `args` string of the miscompare diagnostic: the canonical
arguments at index `i` joined by `; `, or the placeholder when no batch
was supplied (`args = '(args unknown)'`). -/
def argsAt (argsBatch : Option ArgsBatch) (i : Nat) : String :=
  match argsBatch with
  | some b => if b.isEmpty then "(args unknown)"
      else String.intercalate "; " ((b.getD i []).map Value.toIrStr)
  | none => "(args unknown)"

/-- Builds the error raised at the first mismatching index `i`, embedding
lines 479–494: both stage-name bins are computed over **all** stages
(raising `IndexError` when any stage is too short, exactly as the Python
generator expression does), then the diagnostic is assembled. -/
def mismatchError (results : FnResults) (argsBatch : Option ArgsBatch)
    (i : Nat) (refResult value : Value) : FnError :=
  if results.all fun nv => i < nv.2.length then
    let referenceMatches := binMatches results i refResult
    let valuesMatches := binMatches results i value
    .miscompare i (argsAt argsBatch i) referenceMatches refResult.toIrStr
      valuesMatches value.toIrStr
  else .indexError

/-- The comparison loop of `_compare_results_function` over the
lexicographically sorted non-reference stage names (lines 470–494). -/
def compareAgainst (results : FnResults) (argsBatch : Option ArgsBatch)
    (reference : String) : List String → Except FnError Unit
  | [] => .ok ()
  | name :: rest =>
      let refValues := (results.lookup reference).getD []
      let values := (results.lookup name).getD []
      if refValues.length ≠ values.length then
        .error (.lengthMismatch reference refValues.length name values.length)
      else
        match firstMismatch refValues values 0 with
        | some (i, refResult, value) =>
            .error (mismatchError results argsBatch i refResult value)
        | none => compareAgainst results argsBatch reference rest

/-- The condition of the `assert` at line 457: when the args batch is
truthy, the first-inserted stage must have as many values as the batch
(`len(next(iter(results.values()))) == len(args_batch)`). -/
def fnAssertOk (results : FnResults) (argsBatch : Option ArgsBatch) : Bool :=
  match argsBatch with
  | some b => b.isEmpty || ((results.headD ("", [])).2.length == b.length)
  | none => true

/-- Embedding of `_compare_results_function` (lines 436–494): trivial
success on an empty result set; the `assert` that the first-inserted
stage has as many values as the (truthy) args batch; then the sorted
reference/candidate scan. -/
def compareResultsFunction (results : FnResults) (argsBatch : Option ArgsBatch) :
    Except FnError Unit :=
  if results.isEmpty then .ok ()
  else if fnAssertOk results argsBatch then
    match List.insertionSort strLeRel (results.map Prod.fst) with
    | [] => .ok ()
    | reference :: rest => compareAgainst results argsBatch reference rest
  else .error .assertionError

/-- The distinct outcomes of `_compare_results_proc`, with the structured
payload of each raised `SampleError`. -/
inductive ProcError where
  | channelCountMismatch (reference : String) (refCount : Nat) (name : String)
      (count : Nat) (refChannels : List String) (channels : List String)
  | missingChannel (channel : String) (reference : String) (name : String)
  | channelLengthMismatch (reference : String) (channel : String) (refLen : Nat)
      (name : String) (len : Nat)
  | valueMismatch (reference : String) (i : Nat) (channel : String)
      (refValue : Value) (name : String) (value : Value)
deriving DecidableEq

/-- The per-channel scan of `_compare_results_proc` (lines 532–552): walk
the reference stage channel map in insertion order; each channel must
exist in the candidate, have the same sequence length, and agree at every
index. -/
def compareChannels (reference name : String) (channels : ChannelMap) :
    List (String × List Value) → Except ProcError Unit
  | [] => .ok ()
  | (chanRef, valuesRef) :: rest =>
      match channels.lookup chanRef with
      | none => .error (.missingChannel chanRef reference name)
      | some channelValues =>
          if valuesRef.length ≠ channelValues.length then
            .error (.channelLengthMismatch reference chanRef valuesRef.length
              name channelValues.length)
          else
            match firstMismatch valuesRef channelValues 0 with
            | some (i, valueRef, value) =>
                .error (.valueMismatch reference i chanRef valueRef name value)
            | none => compareChannels reference name channels rest

/-- The stage scan of `_compare_results_proc` (lines 522–552): for each
candidate stage in lexicographic order, first the channel-count check
(citing both channel-name lists), then the per-channel scan. -/
def compareStagesProc (results : ProcResults) (reference : String) :
    List String → Except ProcError Unit
  | [] => .ok ()
  | name :: rest =>
      let refMap := (results.lookup reference).getD []
      let channels := (results.lookup name).getD []
      if refMap.length ≠ channels.length then
        .error (.channelCountMismatch reference refMap.length name channels.length
          (refMap.map Prod.fst) (channels.map Prod.fst))
      else
        match compareChannels reference name channels refMap with
        | .error e => .error e
        | .ok () => compareStagesProc results reference rest

/-- Embedding of `_compare_results_proc` (lines 496–552): trivial success
on an empty result set, otherwise sort the stage names, pop the first as
reference, and scan the rest. -/
def compareResultsProc (results : ProcResults) : Except ProcError Unit :=
  if results.isEmpty then .ok ()
  else
    match List.insertionSort strLeRel (results.map Prod.fst) with
    | [] => .ok ()
    | reference :: stages => compareStagesProc results reference stages

/-- Cleanliness of a candidate stage against the reference in function
mode: equal sequence lengths and no mismatching index, so the comparator
scan passes over it without raising. -/
def fnClean (results : FnResults) (reference name : String) : Prop :=
  ((results.lookup reference).getD []).length = ((results.lookup name).getD []).length ∧
  firstMismatch ((results.lookup reference).getD []) ((results.lookup name).getD []) 0 = none

/-- Cleanliness of a candidate stage against the reference in proc mode:
equal channel counts and a per-channel scan that raises nothing. -/
def procStageClean (results : ProcResults) (reference name : String) : Prop :=
  ((results.lookup reference).getD []).length = ((results.lookup name).getD []).length ∧
  compareChannels reference name ((results.lookup name).getD [])
    ((results.lookup reference).getD []) = .ok ()

/-- The proc-mode error raised for a channel that the reference stage has
and a candidate stage lacks names the channel and both stage names: either
directly (`missingChannel`) or through the channel-count diagnostic, whose
text embeds the reference channel-name list (which contains the missing
channel) next to both stage names. -/
def namesMissingChannel (e : ProcError) (c reference name : String) : Prop :=
  match e with
  | .missingChannel ch r n => ch = c ∧ r = reference ∧ n = name
  | .channelCountMismatch r _ n _ refChannels _ => r = reference ∧ n = name ∧ c ∈ refChannels
  | _ => False

/-- The Python exceptions that can escape `_run_function` / `_run_proc`
and reach the handler in `run_from_files`:
`subprocess.TimeoutExpired`, `subprocess.CalledProcessError`, a bare
`assert` failure, `IndexError`, `TypeError`, a `SampleError` raised by the
runner itself, and any other library-raised exception. -/
inductive Exn where
  | timeoutExpired (msg : String)
  | calledProcessError (msg : String)
  | assertionError
  | indexError
  | typeError (msg : String)
  | sampleError (msg : String)
  | libraryError (msg : String)
deriving DecidableEq

/-- The message extraction of `run_from_files` (line 173):
`e.message if hasattr(e, 'message') else str(e)`; a bare `assert` failure
stringifies to the empty string. -/
def msgOf : Exn → String
  | .timeoutExpired m => m
  | .calledProcessError m => m
  | .assertionError => ""
  | .indexError => "list index out of range"
  | .typeError m => m
  | .sampleError m => m
  | .libraryError m => m

/-- Embedding of `isinstance(e, subprocess.TimeoutExpired)` (line 177). -/
def isTimeoutExn : Exn → Bool
  | .timeoutExpired _ => true
  | _ => false

/-- Python `repr` of a list of strings, as interpolated by
`f'... {list(all_channel_values_ref.keys())}'`. -/
def pyStrListRepr (l : List String) : String :=
  let quoted := l.map fun s => "\x27" ++ s ++ "\x27"
  let inner := String.intercalate ", " quoted
  s!"[{inner}]"

/-- The `SampleError` message built by `_compare_results_function`
(assembled exactly as the f-strings at lines 472–474 and 489–494). -/
def renderFnError : FnError → String
  | .assertionError => ""
  | .indexError => "list index out of range"
  | .lengthMismatch reference refLen name len =>
      s!"Results for {reference} has {refLen} values, {name} has {len}"
  | .miscompare i args referenceMatches refResult valuesMatches value =>
      let refNames := String.intercalate ", " referenceMatches
      let valNames := String.intercalate ", " valuesMatches
      s!"Result miscompare for sample {i}:\nargs: {args}\n{refNames} =\n   {refResult}\n{valNames} =\n   {value}"

/-- The `SampleError` message built by `_compare_results_proc` (assembled
as the f-strings at lines 525–531, 536–538, 540–544 and 549–552). -/
def renderProcError : ProcError → String
  | .channelCountMismatch reference refCount name count refChannels channels =>
      let refRepr := pyStrListRepr refChannels
      let chRepr := pyStrListRepr channels
      s!"Results for {reference} has {refCount}  channels, {name} has {count} channels. The IR channel names in {reference} are: {refRepr}.The IR channel names in {name} are: {chRepr}."
  | .missingChannel c reference name =>
      s!"A channel named {c} is present in {reference}, but it is not present in {name}."
  | .channelLengthMismatch reference channel refLen name len =>
      s!"In {reference}, channel \x27{channel}\x27 has {refLen} entries. However, in {name}, channel \x27{channel}\x27 has {len} entries."
  | .valueMismatch reference i channel refValue name value =>
      let refStr := refValue.toIrStr
      let valStr := value.toIrStr
      s!"In {reference}, at position {i} channel \x27{channel}\x27 has value {refStr}. However, in {name}, the value is {valStr}."

/-- Conversion of a function-comparator outcome into the exception that
escapes `_compare_results_function`. -/
def fnErrorToExn : FnError → Exn
  | .assertionError => .assertionError
  | .indexError => .indexError
  | e => .sampleError (renderFnError e)

/-- Conversion of a proc-comparator outcome into the `SampleError` that
escapes `_compare_results_proc`. -/
def procErrorToExn (e : ProcError) : Exn :=
  .sampleError (renderProcError e)

/-- One external invocation or library call performed by the pipeline;
`evalIrFunction`/`evalIrProc` carry the backend selector
(`use_jit`). -/
inductive RunAction where
  | interpretDslxFunction
  | interpretDslxProc
  | convertDslxToIr
  | evalIrFunction (irFile : String) (useJit : Bool)
  | evalIrProc (irFile : String) (useJit : Bool)
  | optimizeIrAction (irFile : String)
  | codegenAction (irFile : String)
  | simulateFunction (verilogFile : String)
deriving DecidableEq

/-- Embedding of `TopType`; `unknown` stands for any value other than
`function` and `proc`, handled by the `else` branch at line 167. -/
inductive TopType where
  | function
  | proc
  | unknown
deriving DecidableEq

/-- Embedding of `SampleOptions` (external class; the fields consulted by
`sample_runner.py`). -/
structure SampleOptions where
  topType : TopType
  inputIsDslx : Bool
  convertToIr : Bool
  optimizeIr : Bool
  useJit : Bool
  codegen : Bool
  simulate : Bool
  useSystemVerilog : Bool

/-- Oracles for the external collaborators (tools and libraries invoked by
the pipeline) plus the two file contents read outside them.  Each oracle
yields either the stage result or the exception the call raised. -/
structure Env where
  revision : String
  inputText : String
  parseArgsBatch : Except Exn ArgsBatch
  parseIrChannelNames : Except Exn (List String)
  parseProcInitValues : Except Exn (List Value)
  interpretDslxFunction : Except Exn (List Value)
  interpretDslxProc : Except Exn ChannelMap
  dslxToIrFunction : Except Exn String
  dslxToIrProc : Except Exn String
  evalIrFunction : String → Bool → Except Exn (List Value)
  evalIrProc : String → Bool → Except Exn ChannelMap
  optimizeIr : Except Exn String
  runCodegen : Except Exn String
  simulateFunction : Except Exn (List Value)

/-- Growing pipeline state: files written to the run directory, external
calls performed, and the insertion-ordered result map. -/
structure PipeState (ρ : Type) where
  writes : List (String × String)
  trace : List RunAction
  results : List (String × ρ)

/-- Appends one file write. -/
def PipeState.write (st : PipeState ρ) (name content : String) : PipeState ρ :=
  { st with writes := st.writes ++ [(name, content)] }

/-- Appends one external call. -/
def PipeState.act (st : PipeState ρ) (a : RunAction) : PipeState ρ :=
  { st with trace := st.trace ++ [a] }

/-- Appends one result-map entry. -/
def PipeState.record (st : PipeState ρ) (name : String) (r : ρ) : PipeState ρ :=
  { st with results := st.results ++ [(name, r)] }

/-- Sequencing of one pipeline step with the rest of the phase: an
exception short-circuits, success feeds the updated state onward. -/
def pipeThen (x : PipeState ρ × Except Exn Unit)
    (k : PipeState ρ → PipeState ρ × Except Exn β) : PipeState ρ × Except Exn β :=
  match x with
  | (st, .error e) => (st, .error e)
  | (st, .ok ()) => k st

/-- One external invocation: log the action, consult the oracle, and on
success continue with the updated state and the oracle's result. -/
def stepRun (st : PipeState ρ) (a : RunAction) (x : Except Exn α)
    (k : PipeState ρ → α → PipeState ρ × Except Exn β) : PipeState ρ × Except Exn β :=
  let st := st.act a
  match x with
  | .error e => (st, .error e)
  | .ok v => k st v

/-- Function-mode pipeline state. -/
abbrev FnState := PipeState (List Value)

/-- Proc-mode pipeline state. -/
abbrev ProcState := PipeState ChannelMap

/-- Truthiness of an optional filename (`if args_filename:`). -/
def fileTruthy : Option String → Bool
  | some s => !s.isEmpty
  | none => false

/-- Lines 195–197: parse the args batch when the filename is truthy. -/
def fnReadArgs (env : Env) (argsFilename : Option String) (st : FnState) :
    FnState × Except Exn (Option ArgsBatch) :=
  if fileTruthy argsFilename then
    match env.parseArgsBatch with
    | .error e => (st, .error e)
    | .ok b => (st, .ok (some b))
  else (st, .ok none)

/-- Lines 202–219 of `_run_function`: DSLX interpretation (when the input
is DSLX and the batch is truthy), then early successful return when
`convert_to_ir` is false, else IR conversion; for non-DSLX input the text
is written as `sample.ir` directly.  Yields `false` for the early
return. -/
def fnDslxPhase (env : Env) (options : SampleOptions) (argsBatch : Option ArgsBatch)
    (st : FnState) : FnState × Except Exn Bool :=
  if options.inputIsDslx then
    let step1 : FnState × Except Exn Unit :=
      if batchTruthy argsBatch then
        stepRun st .interpretDslxFunction env.interpretDslxFunction fun st vals =>
          ((st.write "sample.x.results" (valuesToText vals)).record
            "interpreted DSLX" vals, .ok ())
      else (st, .ok ())
    pipeThen step1 fun st =>
      if !options.convertToIr then (st, .ok false)
      else
        stepRun st .convertDslxToIr env.dslxToIrFunction fun st irText =>
          (st.write "sample.ir" irText, .ok true)
  else (st.write "sample.ir" env.inputText, .ok true)

/-- One `_evaluate_ir_function` call: invoke the evaluator, persist the
`.results` artifact, record the stage result under `key`. -/
def fnEvalCall (env : Env) (st : FnState) (irFile : String) (useJit : Bool)
    (key : String) : FnState × Except Exn Unit :=
  stepRun st (.evalIrFunction irFile useJit) (env.evalIrFunction irFile useJit)
    fun st vals =>
      ((st.write (irFile ++ ".results") (valuesToText vals)).record key vals, .ok ())

/-- Lines 221–234 of `_run_function`: whenever an args file is present
(`args_filename is not None`), evaluate the unoptimized IR with the
interpreter backend unconditionally, then additionally with the JIT when
`use_jit` is set. -/
def fnUnoptEvalPhase (env : Env) (options : SampleOptions)
    (argsFilename : Option String) (st : FnState) : FnState × Except Exn Unit :=
  if argsFilename.isSome then
    pipeThen (fnEvalCall env st "sample.ir" false "evaluated unopt IR (interpreter)")
      fun st =>
        if options.useJit then
          fnEvalCall env st "sample.ir" true "evaluated unopt IR (JIT)"
        else (st, .ok ())
  else (st, .ok ())

/-- Lines 253–265 of `_run_function`: codegen and simulation, with the
`assert args_filename is not None` guarding the simulation stage. -/
def fnCodegenPhase (env : Env) (options : SampleOptions) (argsFilename : Option String)
    (st : FnState) : FnState × Except Exn Unit :=
  if options.codegen then
    stepRun st (.codegenAction "sample.opt.ir") env.runCodegen fun st verilogText =>
      let vfile := if options.useSystemVerilog then "sample.sv" else "sample.v"
      let st := st.write vfile verilogText
      if options.simulate then
        if argsFilename.isSome then
          stepRun st (.simulateFunction vfile) env.simulateFunction fun st vals =>
            ((st.write (vfile ++ ".results") (valuesToText vals)).record
              "simulated" vals, .ok ())
        else (st, .error .assertionError)
      else (st, .ok ())
  else (st, .ok ())

/-- Lines 236–265 of `_run_function`: optimization, optimized-IR
evaluations, then the codegen/simulation block. -/
def fnOptPhase (env : Env) (options : SampleOptions) (argsFilename : Option String)
    (st : FnState) : FnState × Except Exn Unit :=
  if options.optimizeIr then
    stepRun st (.optimizeIrAction "sample.ir") env.optimizeIr fun st optText =>
      let st := st.write "sample.opt.ir" optText
      let step2 : FnState × Except Exn Unit :=
        if argsFilename.isSome then
          if options.useJit then
            pipeThen (fnEvalCall env st "sample.opt.ir" true "evaluated opt IR (JIT)")
              fun st =>
                fnEvalCall env st "sample.opt.ir" false "evaluated opt IR (interpreter)"
          else fnEvalCall env st "sample.opt.ir" false "evaluated opt IR (interpreter)"
        else (st, .ok ())
      pipeThen step2 (fnCodegenPhase env options argsFilename)
  else (st, .ok ())

/-- Outcome of the stage portion of `_run_function`: the early successful
return at line 213, or completion with the parsed batch, ready for
comparison. -/
inductive FnPipeOut where
  | earlyReturn
  | completed (argsBatch : Option ArgsBatch)

/-- The stage portion of `_run_function` (everything before the final
`_compare_results_function` call), as a chain of its phases. -/
def runFunctionPipeline (env : Env) (options : SampleOptions)
    (argsFilename : Option String) : FnState × Except Exn FnPipeOut :=
  match fnReadArgs env argsFilename ⟨[], [], []⟩ with
  | (st, .error e) => (st, .error e)
  | (st, .ok argsBatch) =>
      match fnDslxPhase env options argsBatch st with
      | (st, .error e) => (st, .error e)
      | (st, .ok false) => (st, .ok .earlyReturn)
      | (st, .ok true) =>
          match fnUnoptEvalPhase env options argsFilename st with
          | (st, .error e) => (st, .error e)
          | (st, .ok ()) =>
              match fnOptPhase env options argsFilename st with
              | (st, .error e) => (st, .error e)
              | (st, .ok ()) => (st, .ok (.completed argsBatch))

/-- The whole of `_run_function`: the stage pipeline followed — only on
normal completion — by the comparator.  The boolean records whether the
comparator was invoked. -/
def runFunctionStage (env : Env) (options : SampleOptions)
    (argsFilename : Option String) : FnState × Bool × Except Exn Unit :=
  match runFunctionPipeline env options argsFilename with
  | (st, .error e) => (st, false, .error e)
  | (st, .ok .earlyReturn) => (st, false, .ok ())
  | (st, .ok (.completed argsBatch)) =>
      (st, true,
        match compareResultsFunction st.results argsBatch with
        | .ok () => .ok ()
        | .error ce => .error (fnErrorToExn ce))

/-- Modelled from the spec (§6): the rendering used for per-channel value
files (`channel_inputs.txt`, proc `.results` artifacts); the codec itself
is external (`eval_helpers.channel_values_to_string`). -/
def channelValuesToString (cvs : ChannelMap) : String :=
  String.intercalate "\n"
    (cvs.map fun kv =>
      let vals := String.intercalate ", " (kv.2.map Value.toIrStr)
      kv.1 ++ " : " ++ vals)

/-- The input marshalling of `_evaluate_ir_proc` (lines 622–627): channel
`names[j]` receives the `j`-th value of every batch row. -/
def transposeBatch (names : List String) (batch : ArgsBatch) : ChannelMap :=
  (names.enum.map fun nj =>
    (nj.2, batch.map fun row => row.getD nj.1 (Value.bits false 0 0)))

/-- Lines 290–300 of `_run_proc`: parse the three optional input files,
each gated on filename truthiness, in order. -/
def procReadInputs (env : Env)
    (argsFilename irChannelNamesFilename procInitValuesFilename : Option String)
    (st : ProcState) :
    ProcState × Except Exn (Option ArgsBatch × Option (List String) × Option (List Value)) :=
  let argsStep : Except Exn (Option ArgsBatch) :=
    if fileTruthy argsFilename then
      match env.parseArgsBatch with
      | .error e => .error e
      | .ok b => .ok (some b)
    else .ok none
  match argsStep with
  | .error e => (st, .error e)
  | .ok argsBatch =>
      let chStep : Except Exn (Option (List String)) :=
        if fileTruthy irChannelNamesFilename then
          match env.parseIrChannelNames with
          | .error e => .error e
          | .ok ns => .ok (some ns)
        else .ok none
      match chStep with
      | .error e => (st, .error e)
      | .ok irChannelNames =>
          let pivStep : Except Exn (Option (List Value)) :=
            if fileTruthy procInitValuesFilename then
              match env.parseProcInitValues with
              | .error e => .error e
              | .ok vs => .ok (some vs)
            else .ok none
          match pivStep with
          | .error e => (st, .error e)
          | .ok procInitValues => (st, .ok (argsBatch, irChannelNames, procInitValues))

/-- Lines 311–329 of `_run_proc`: DSLX interpretation, early return when
`convert_to_ir` is false, IR conversion (which iterates
`proc_init_values`, raising `TypeError` when that is `None`), or the
direct `sample.ir` write for non-DSLX input. -/
def procDslxPhase (env : Env) (options : SampleOptions) (argsBatch : Option ArgsBatch)
    (procInitValues : Option (List Value)) (st : ProcState) :
    ProcState × Except Exn Bool :=
  if options.inputIsDslx then
    let step1 : ProcState × Except Exn Unit :=
      if batchTruthy argsBatch then
        stepRun st .interpretDslxProc env.interpretDslxProc fun st cm =>
          ((st.write "sample.x.results" (channelValuesToString cm)).record
            "interpreted DSLX" cm, .ok ())
      else (st, .ok ())
    pipeThen step1 fun st =>
      if !options.convertToIr then (st, .ok false)
      else
        match procInitValues with
        | none => (st, .error (.typeError "\x27NoneType\x27 object is not iterable"))
        | some _ =>
            stepRun st .convertDslxToIr env.dslxToIrProc fun st irText =>
              (st.write "sample.ir" irText, .ok true)
  else (st.write "sample.ir" env.inputText, .ok true)

/-- One `_evaluate_ir_proc` call (lines 616–656): channel marshalling
(raising `TypeError` when the channel-name list or batch is `None` and
`AssertionError` when a batch row's width differs from the channel count),
the `channel_inputs.txt` artifact, the evaluator invocation with the
chosen backend, the `.results` artifact, and the recorded result. -/
def procEvalCall (env : Env) (st : ProcState) (irFile : String) (useJit : Bool)
    (argsBatch : Option ArgsBatch) (irChannelNames : Option (List String))
    (key : String) : ProcState × Except Exn Unit :=
  match irChannelNames with
  | none => (st, .error (.typeError "\x27NoneType\x27 object is not iterable"))
  | some names =>
      match argsBatch with
      | none => (st, .error (.typeError "\x27NoneType\x27 object is not iterable"))
      | some batch =>
          if batch.all fun row => row.length == names.length then
            let st := st.write "channel_inputs.txt"
              (channelValuesToString (transposeBatch names batch))
            stepRun st (.evalIrProc irFile useJit) (env.evalIrProc irFile useJit)
              fun st cm =>
                ((st.write (irFile ++ ".results") (channelValuesToString cm)).record
                  key cm, .ok ())
          else (st, .error .assertionError)

/-- Lines 331–343 of `_run_proc`: whenever an args file is present,
evaluate the unoptimized IR with the interpreter backend unconditionally,
then additionally with the JIT when `use_jit` is set. -/
def procUnoptEvalPhase (env : Env) (options : SampleOptions)
    (argsFilename : Option String) (argsBatch : Option ArgsBatch)
    (irChannelNames : Option (List String)) (st : ProcState) :
    ProcState × Except Exn Unit :=
  if argsFilename.isSome then
    pipeThen (procEvalCall env st "sample.ir" false argsBatch irChannelNames
        "evaluated unopt IR (interpreter)")
      fun st =>
        if options.useJit then
          procEvalCall env st "sample.ir" true argsBatch irChannelNames
            "evaluated unopt IR (JIT)"
        else (st, .ok ())
  else (st, .ok ())

/-- Lines 361–370 of `_run_proc`: codegen and the simulation stage, which
asserts an args file and then always raises (`_simulate_proc` is
unimplemented, line 729). -/
def procCodegenPhase (env : Env) (options : SampleOptions)
    (argsFilename : Option String) (st : ProcState) : ProcState × Except Exn Unit :=
  if options.codegen then
    stepRun st (.codegenAction "sample.opt.ir") env.runCodegen fun st verilogText =>
      let vfile := if options.useSystemVerilog then "sample.sv" else "sample.v"
      let st := st.write vfile verilogText
      if options.simulate then
        if argsFilename.isSome then
          (st, .error (.sampleError "Simulation for procs are not supported."))
        else (st, .error .assertionError)
      else (st, .ok ())
  else (st, .ok ())

/-- Lines 345–370 of `_run_proc`: optimization, optimized-IR evaluations,
then the codegen/simulation block. -/
def procOptPhase (env : Env) (options : SampleOptions) (argsFilename : Option String)
    (argsBatch : Option ArgsBatch) (irChannelNames : Option (List String))
    (st : ProcState) : ProcState × Except Exn Unit :=
  if options.optimizeIr then
    stepRun st (.optimizeIrAction "sample.ir") env.optimizeIr fun st optText =>
      let st := st.write "sample.opt.ir" optText
      let step2 : ProcState × Except Exn Unit :=
        if argsFilename.isSome then
          if options.useJit then
            pipeThen (procEvalCall env st "sample.opt.ir" true argsBatch irChannelNames
                "evaluated opt IR (JIT)")
              fun st =>
                procEvalCall env st "sample.opt.ir" false argsBatch irChannelNames
                  "evaluated opt IR (interpreter)"
          else
            procEvalCall env st "sample.opt.ir" false argsBatch irChannelNames
              "evaluated opt IR (interpreter)"
        else (st, .ok ())
      pipeThen step2 (procCodegenPhase env options argsFilename)
  else (st, .ok ())

/-- Outcome of the stage portion of `_run_proc`. -/
inductive ProcPipeOut where
  | earlyReturn
  | completed

/-- The stage portion of `_run_proc` (everything before the final
`_compare_results_proc` call), as a chain of its phases. -/
def runProcPipeline (env : Env) (options : SampleOptions)
    (argsFilename irChannelNamesFilename procInitValuesFilename : Option String) :
    ProcState × Except Exn ProcPipeOut :=
  match procReadInputs env argsFilename irChannelNamesFilename
      procInitValuesFilename ⟨[], [], []⟩ with
  | (st, .error e) => (st, .error e)
  | (st, .ok (argsBatch, irChannelNames, procInitValues)) =>
      match procDslxPhase env options argsBatch procInitValues st with
      | (st, .error e) => (st, .error e)
      | (st, .ok false) => (st, .ok .earlyReturn)
      | (st, .ok true) =>
          match procUnoptEvalPhase env options argsFilename argsBatch irChannelNames st with
          | (st, .error e) => (st, .error e)
          | (st, .ok ()) =>
              match procOptPhase env options argsFilename argsBatch irChannelNames st with
              | (st, .error e) => (st, .error e)
              | (st, .ok ()) => (st, .ok .completed)

/-- The whole of `_run_proc`: the stage pipeline followed — only on normal
completion — by the comparator.  The boolean records whether the
comparator was invoked. -/
def runProcStage (env : Env) (options : SampleOptions)
    (argsFilename irChannelNamesFilename procInitValuesFilename : Option String) :
    ProcState × Bool × Except Exn Unit :=
  match runProcPipeline env options argsFilename irChannelNamesFilename
      procInitValuesFilename with
  | (st, .error e) => (st, false, .error e)
  | (st, .ok .earlyReturn) => (st, false, .ok ())
  | (st, .ok .completed) =>
      (st, true,
        match compareResultsProc st.results with
        | .ok () => .ok ()
        | .error ce => .error (procErrorToExn ce))

/-- The unified error of the runner: a message and the timeout flag
(`SampleError`). -/
structure SampleErr where
  msg : String
  isTimeout : Bool
deriving DecidableEq

/-- The externally observable outcome of one `run_from_files` call. -/
structure RunResult where
  writes : List (String × String)
  trace : List RunAction
  compared : Bool
  outcome : Except SampleErr Unit

/-- Embedding of `run_from_files` (lines 134–177): write `revision.txt`,
dispatch on the top type inside the `try` block, and normalize any escaped
exception — persist its message as `exception.txt`, then surface a single
`SampleError` whose timeout flag records whether the exception was a
`subprocess.TimeoutExpired`. -/
def runFromFiles (env : Env) (options : SampleOptions)
    (argsFilename irChannelNamesFilename procInitValuesFilename : Option String) :
    RunResult :=
  let writes0 := [("revision.txt", env.revision)]
  match options.topType with
  | .function =>
      match runFunctionStage env options argsFilename with
      | (st, compared, .ok ()) => ⟨writes0 ++ st.writes, st.trace, compared, .ok ()⟩
      | (st, compared, .error e) =>
          ⟨writes0 ++ st.writes ++ [("exception.txt", msgOf e)], st.trace, compared,
            .error ⟨msgOf e, isTimeoutExn e⟩⟩
  | .proc =>
      match runProcStage env options argsFilename irChannelNamesFilename
          procInitValuesFilename with
      | (st, compared, .ok ()) => ⟨writes0 ++ st.writes, st.trace, compared, .ok ()⟩
      | (st, compared, .error e) =>
          ⟨writes0 ++ st.writes ++ [("exception.txt", msgOf e)], st.trace, compared,
            .error ⟨msgOf e, isTimeoutExn e⟩⟩
  | .unknown =>
      let m := "Unsupported sample type : TopType.unknown."
      ⟨writes0 ++ [("exception.txt", m)], [], false, .error ⟨m, false⟩⟩

/-- A concrete all-successful environment for witnesses. -/
def testEnv : Env where
  revision := "rev"
  inputText := "ir-text"
  parseArgsBatch := .ok [[Value.bits false 8 5]]
  parseIrChannelNames := .ok ["chan"]
  parseProcInitValues := .ok []
  interpretDslxFunction := .ok [Value.bits false 8 5]
  interpretDslxProc := .ok [("chan", [Value.bits false 8 5])]
  dslxToIrFunction := .ok "ir"
  dslxToIrProc := .ok "ir"
  evalIrFunction := fun _ _ => .ok [Value.bits false 8 5]
  evalIrProc := fun _ _ => .ok [("chan", [Value.bits false 8 5])]
  optimizeIr := .ok "opt"
  runCodegen := .ok "v"
  simulateFunction := .ok [Value.bits false 8 5]

/-- A variant of `testEnv` whose IR evaluator times out. -/
def timeoutEnv : Env :=
  { testEnv with evalIrFunction := fun _ _ => .error (.timeoutExpired "timed out") }

/-! ### Lemmas about the function-mode comparator -/

theorem compareAgainst_ne_assertion (results : FnResults) (args : Option ArgsBatch)
    (reference : String) (names : List String) :
    compareAgainst results args reference names ≠ .error .assertionError := by
  induction names with
  | nil => simp [compareAgainst]
  | cons name rest ih =>
      simp only [compareAgainst]
      split
      · simp
      · split
        · simp only [mismatchError]
          split <;> simp
        · exact ih

theorem compareAgainst_skip (results : FnResults) (args : Option ArgsBatch)
    (reference : String) (pre rest : List String)
    (h : ∀ c ∈ pre, fnClean results reference c) :
    compareAgainst results args reference (pre ++ rest) =
      compareAgainst results args reference rest := by
  induction pre with
  | nil => rfl
  | cons c cs ih =>
      obtain ⟨hlen, hfm⟩ := h c (List.mem_cons_self c cs)
      simp only [List.cons_append, compareAgainst]
      rw [if_neg (not_not_intro hlen), hfm]
      exact ih fun d hd => h d (List.mem_cons_of_mem _ hd)

theorem binMatches_mem (results : FnResults) (i : Nat) (target : Value) (n : String) :
    n ∈ binMatches results i target ↔
      ∃ vs, (n, vs) ∈ results ∧
        valuesEqual (vs.getD i (Value.bits false 0 0)) target = true := by
  simp only [binMatches, List.mem_insertionSort, List.mem_map, List.mem_filter]
  constructor
  · rintro ⟨⟨m, vs⟩, ⟨hmem, hval⟩, rfl⟩
    exact ⟨vs, hmem, hval⟩
  · rintro ⟨vs, hmem, hval⟩
    exact ⟨(n, vs), ⟨hmem, hval⟩, rfl⟩

/-- **C8.** For every empty ResultSet, the comparator — in both function
mode and proc mode — returns successfully, raising no error and
performing no comparison. -/
theorem c8_empty_resultset_succeeds :
    (∀ argsBatch : Option ArgsBatch, compareResultsFunction [] argsBatch = .ok ()) ∧
    compareResultsProc [] = .ok () :=
  ⟨fun _ => rfl, rfl⟩

/-- **C4.** When an args batch is supplied (truthy) together with a
non-empty function-mode ResultSet, length consistency is guarded by a bare
`assert`: whenever every stage's value-sequence length equals the batch
length the assertion never fires (first conjunct), and when the checked
(first-inserted) stage's length differs from the batch length the
comparator raises the assertion failure rather than reporting gracefully
(second conjunct). -/
theorem c4_args_batch_assert (results : FnResults) (b : ArgsBatch)
    (hres : results ≠ []) (hb : b ≠ []) :
    ((∀ p ∈ results, p.2.length = b.length) →
      compareResultsFunction results (some b) ≠ .error .assertionError) ∧
    ((results.headD ("", [])).2.length ≠ b.length →
      compareResultsFunction results (some b) = .error .assertionError) := by
  have hemp : results.isEmpty = false := by
    simpa [List.isEmpty_iff] using hres
  have hbemp : b.isEmpty = false := by
    simpa [List.isEmpty_iff] using hb
  constructor
  · intro hall
    have hok : fnAssertOk results (some b) = true := by
      cases results with
      | nil => exact absurd rfl hres
      | cons p ps =>
          have hp : p.2.length = b.length := hall p (List.mem_cons_self p ps)
          simp [fnAssertOk, hp]
    simp only [compareResultsFunction, hemp, hok]
    simp only [Bool.false_eq_true, if_false, if_true]
    split
    · simp
    · exact compareAgainst_ne_assertion _ _ _ _
  · intro hne
    have hok : fnAssertOk results (some b) = false := by
      cases results with
      | nil => exact absurd rfl hres
      | cons p ps =>
          simp only [List.headD_cons] at hne
          simp [fnAssertOk, hbemp, hne]
    simp [compareResultsFunction, hemp, hok]

/-- **C3.** In function mode, when the comparator scan reaches a
candidate stage whose value-sequence length differs from the reference
stage's (every lexicographically earlier candidate comparing clean), it
raises the error naming both stage names and both lengths; the conclusion
depends only on the candidate's length, never on its elements, so no
element of the candidate is compared. -/
theorem c3_length_mismatch_raises (results : FnResults) (args : Option ArgsBatch)
    (reference name : String) (pre post : List String)
    (hsort : List.insertionSort strLeRel (results.map Prod.fst) =
      reference :: (pre ++ name :: post))
    (hassert : fnAssertOk results args = true)
    (hpre : ∀ c ∈ pre, fnClean results reference c)
    (hlen : ((results.lookup reference).getD []).length ≠
      ((results.lookup name).getD []).length) :
    compareResultsFunction results args =
      .error (.lengthMismatch reference ((results.lookup reference).getD []).length
        name ((results.lookup name).getD []).length) := by
  have hres : results ≠ [] := by
    intro h
    subst h
    simp [List.insertionSort] at hsort
  have hemp : results.isEmpty = false := by
    simpa [List.isEmpty_iff] using hres
  simp only [compareResultsFunction, hemp, hassert]
  simp only [Bool.false_eq_true, if_false, if_true]
  rw [hsort]
  show compareAgainst results args reference (pre ++ name :: post) = _
  rw [compareAgainst_skip _ _ _ pre (name :: post) hpre]
  simp only [compareAgainst]
  rw [if_pos hlen]

/-- **C2.** In function mode, at the first index `i` where a candidate
differs from the reference (all earlier candidates clean, all stages long
enough for the binning), the comparator raises the diagnostic carrying the
index, the canonical arguments at `i` (or the placeholder), both sorted
stage-name groups and both conflicting values in canonical form; each
group is characterized independently as exactly the stages whose value at
`i` equals the respective target — so a stage can be in both groups and a
stage agreeing with neither is in neither. -/
theorem c2_miscompare_diagnostic (results : FnResults) (args : Option ArgsBatch)
    (reference name : String) (pre post : List String) (i : Nat) (rv vv : Value)
    (hsort : List.insertionSort strLeRel (results.map Prod.fst) =
      reference :: (pre ++ name :: post))
    (hassert : fnAssertOk results args = true)
    (hpre : ∀ c ∈ pre, fnClean results reference c)
    (hlen : ¬((results.lookup reference).getD []).length ≠
      ((results.lookup name).getD []).length)
    (hfm : firstMismatch ((results.lookup reference).getD [])
      ((results.lookup name).getD []) 0 = some (i, rv, vv))
    (hall : (results.all fun nv => i < nv.2.length) = true) :
    compareResultsFunction results args =
      .error (.miscompare i (argsAt args i) (binMatches results i rv) rv.toIrStr
        (binMatches results i vv) vv.toIrStr) ∧
    (∀ n, n ∈ binMatches results i rv ↔
      ∃ vs, (n, vs) ∈ results ∧
        valuesEqual (vs.getD i (Value.bits false 0 0)) rv = true) ∧
    (∀ n, n ∈ binMatches results i vv ↔
      ∃ vs, (n, vs) ∈ results ∧
        valuesEqual (vs.getD i (Value.bits false 0 0)) vv = true) ∧
    List.Sorted strLeRel (binMatches results i rv) ∧
    List.Sorted strLeRel (binMatches results i vv) := by
  refine ⟨?_, fun n => binMatches_mem results i rv n, fun n => binMatches_mem results i vv n,
    List.sorted_insertionSort strLeRel _, List.sorted_insertionSort strLeRel _⟩
  have hres : results ≠ [] := by
    intro h
    subst h
    simp [List.insertionSort] at hsort
  have hemp : results.isEmpty = false := by
    simpa [List.isEmpty_iff] using hres
  simp only [compareResultsFunction, hemp, hassert]
  simp only [Bool.false_eq_true, if_false, if_true]
  rw [hsort]
  show compareAgainst results args reference (pre ++ name :: post) = _
  rw [compareAgainst_skip _ _ _ pre (name :: post) hpre]
  simp only [compareAgainst]
  rw [if_neg hlen, hfm]
  show Except.error (mismatchError results args i rv vv) = _
  simp only [mismatchError, hall]
  simp

/-! ### Lemmas about the proc-mode comparator -/

theorem compareStagesProc_skip (results : ProcResults) (reference : String)
    (pre rest : List String) (h : ∀ s ∈ pre, procStageClean results reference s) :
    compareStagesProc results reference (pre ++ rest) =
      compareStagesProc results reference rest := by
  induction pre with
  | nil => rfl
  | cons s ss ih =>
      obtain ⟨hlen, hcc⟩ := h s (List.mem_cons_self s ss)
      simp only [List.cons_append, compareStagesProc]
      rw [if_neg (not_not_intro hlen), hcc]
      exact ih fun d hd => h d (List.mem_cons_of_mem _ hd)

theorem compareChannels_missing (reference name : String) (channels : ChannelMap)
    (c : String) :
    ∀ refMap : List (String × List Value),
    c ∈ refMap.map Prod.fst →
    channels.lookup c = none →
    (∀ d vs, (d, vs) ∈ refMap → d ≠ c →
      ∃ ws, channels.lookup d = some ws ∧ vs.length = ws.length ∧
        firstMismatch vs ws 0 = none) →
    compareChannels reference name channels refMap =
      .error (.missingChannel c reference name)
  | [], hc, _, _ => by simp at hc
  | (d, vs) :: tl, hc, hmiss, hmatch => by
      by_cases hdc : d = c
      · subst hdc
        simp only [compareChannels]
        simp only [hmiss]
      · obtain ⟨ws, hws, hlen, hfm⟩ := hmatch d vs (List.mem_cons_self _ _) hdc
        simp only [compareChannels]
        simp only [hws]
        rw [if_neg (not_not_intro hlen)]
        simp only [hfm]
        refine compareChannels_missing reference name channels c tl ?_ hmiss ?_
        · rcases (List.mem_map.mp hc) with ⟨⟨d2, vs2⟩, hmem, hfst⟩
          rcases List.mem_cons.mp hmem with heq | hmem2
          · exfalso
            apply hdc
            rw [← hfst]
            rw [heq]
          · exact List.mem_map.mpr ⟨(d2, vs2), hmem2, hfst⟩
        · exact fun d2 vs2 hm => hmatch d2 vs2 (List.mem_cons_of_mem _ hm)

/-- **C5.** In proc mode, for a candidate stage lacking a channel that the
reference stage has — every lexicographically earlier candidate comparing
clean, and every other reference channel matching perfectly in the
candidate — the comparator raises an error naming the missing channel and
both stage names (directly, or with the missing channel inside the
reference channel-name list of the channel-count diagnostic). -/
theorem c5_missing_channel_raises (results : ProcResults) (reference name : String)
    (pre post : List String) (c : String)
    (hsort : List.insertionSort strLeRel (results.map Prod.fst) =
      reference :: (pre ++ name :: post))
    (hpre : ∀ s ∈ pre, procStageClean results reference s)
    (hc : c ∈ ((results.lookup reference).getD []).map Prod.fst)
    (hmiss : ((results.lookup name).getD []).lookup c = none)
    (hmatch : ∀ d vs, (d, vs) ∈ (results.lookup reference).getD [] → d ≠ c →
      ∃ ws, ((results.lookup name).getD []).lookup d = some ws ∧
        vs.length = ws.length ∧ firstMismatch vs ws 0 = none) :
    ∃ e, compareResultsProc results = .error e ∧ namesMissingChannel e c reference name := by
  have hres : results ≠ [] := by
    intro h
    subst h
    simp [List.insertionSort] at hsort
  have hemp : results.isEmpty = false := by
    simpa [List.isEmpty_iff] using hres
  have hmain : compareResultsProc results =
      compareStagesProc results reference (name :: post) := by
    simp only [compareResultsProc, hemp]
    simp only [Bool.false_eq_true, if_false]
    rw [hsort]
    show compareStagesProc results reference (pre ++ name :: post) = _
    exact compareStagesProc_skip _ _ pre (name :: post) hpre
  by_cases hcount : ((results.lookup reference).getD []).length =
      ((results.lookup name).getD []).length
  · refine ⟨.missingChannel c reference name, ?_, by simp [namesMissingChannel]⟩
    rw [hmain]
    simp only [compareStagesProc]
    rw [if_neg (not_not_intro hcount)]
    rw [compareChannels_missing reference name _ c _ hc hmiss hmatch]
  · refine ⟨.channelCountMismatch reference ((results.lookup reference).getD []).length
      name ((results.lookup name).getD []).length
      (((results.lookup reference).getD []).map Prod.fst)
      (((results.lookup name).getD []).map Prod.fst), ?_, ?_⟩
    · rw [hmain]
      simp only [compareStagesProc]
      rw [if_pos hcount]
    · exact ⟨rfl, rfl, hc⟩

/-! ### Insertion-order independence of the comparators -/

theorem lookup_eq_of_perm {β : Type} {l1 l2 : List (String × β)} (h : l1.Perm l2)
    (hnd : (l1.map Prod.fst).Nodup) : ∀ k, l1.lookup k = l2.lookup k := by
  induction h with
  | nil => intro k; rfl
  | cons x h ih =>
      intro k
      obtain ⟨a, b⟩ := x
      simp only [List.map_cons, List.nodup_cons] at hnd
      simp only [List.lookup_cons]
      split
      · rfl
      · exact ih hnd.2 k
  | swap x y l =>
      intro k
      obtain ⟨a, b⟩ := x
      obtain ⟨a2, b2⟩ := y
      simp only [List.map_cons, List.nodup_cons, List.mem_cons] at hnd
      have hne : a2 ≠ a := fun he => hnd.1 (Or.inl he)
      simp only [List.lookup_cons]
      by_cases h1 : a = k
      · have hb1 : (k == a) = true := by simp [h1]
        have hb2 : (k == a2) = false := by
          subst h1
          simp
          exact fun he => hne he.symm
        rw [hb1, hb2]
      · have hb1 : (k == a) = false := by
          simp
          exact fun he => h1 he.symm
        by_cases h2 : a2 = k
        · have hb2 : (k == a2) = true := by simp [h2]
          rw [hb1, hb2]
        · have hb2 : (k == a2) = false := by
            simp
            exact fun he => h2 he.symm
          rw [hb1, hb2]
  | trans h1 _ ih1 ih2 =>
      intro k
      have hnd2 : (_ : List (String × β)).map Prod.fst |>.Nodup :=
        ((h1.map Prod.fst).nodup_iff).mp hnd
      exact (ih1 hnd k).trans (ih2 hnd2 k)

theorem insertionSort_eq_of_perm {l1 l2 : List String} (h : l1.Perm l2) :
    List.insertionSort strLeRel l1 = List.insertionSort strLeRel l2 :=
  List.eq_of_perm_of_sorted
    ((List.perm_insertionSort strLeRel l1).trans
      (h.trans (List.perm_insertionSort strLeRel l2).symm))
    (List.sorted_insertionSort strLeRel l1) (List.sorted_insertionSort strLeRel l2)

theorem all_eq_of_perm {α : Type} (p : α → Bool) {l1 l2 : List α} (h : l1.Perm l2) :
    l1.all p = l2.all p := by
  induction h with
  | nil => rfl
  | cons x _ ih => simp [List.all_cons, ih]
  | swap x y l => simp [List.all_cons, Bool.and_left_comm]
  | trans _ _ ih1 ih2 => exact ih1.trans ih2

theorem binMatches_eq_of_perm {results1 results2 : FnResults} (h : results1.Perm results2)
    (i : Nat) (target : Value) : binMatches results1 i target = binMatches results2 i target :=
  insertionSort_eq_of_perm ((h.filter _).map _)

theorem mismatchError_eq_of_perm {results1 results2 : FnResults} (h : results1.Perm results2)
    (args : Option ArgsBatch) (i : Nat) (rv vv : Value) :
    mismatchError results1 args i rv vv = mismatchError results2 args i rv vv := by
  simp only [mismatchError]
  rw [all_eq_of_perm _ h, binMatches_eq_of_perm h, binMatches_eq_of_perm h]

theorem compareAgainst_eq_of_perm {results1 results2 : FnResults} (args : Option ArgsBatch)
    (reference : String) (h : results1.Perm results2)
    (hnd : (results1.map Prod.fst).Nodup) :
    ∀ names, compareAgainst results1 args reference names =
      compareAgainst results2 args reference names := by
  intro names
  have hl := lookup_eq_of_perm h hnd
  induction names with
  | nil => rfl
  | cons name rest ih =>
      simp only [compareAgainst, hl reference, hl name]
      split
      · rfl
      · split
        · rw [mismatchError_eq_of_perm h]
        · exact ih

theorem compareStagesProc_eq_of_perm {results1 results2 : ProcResults}
    (reference : String) (h : results1.Perm results2)
    (hnd : (results1.map Prod.fst).Nodup) :
    ∀ stages, compareStagesProc results1 reference stages =
      compareStagesProc results2 reference stages := by
  intro stages
  have hl := lookup_eq_of_perm h hnd
  induction stages with
  | nil => rfl
  | cons name rest ih =>
      simp only [compareStagesProc, hl reference, hl name]
      split
      · rfl
      · split
        · rfl
        · exact ih

/-- **C1 counterexample.** Two insertion orders of the same two-stage
mapping (a permutation of each other), with a one-row args batch: in one
order the comparator raises the length-mismatch `SampleError`, in the
other the internal assertion fires instead — the outcome is not a function
of the mapping's contents alone. -/
theorem c1_counterexample_order_dependent :
    List.Perm
      ([("B", [Value.bits false 8 5, Value.bits false 8 5]),
        ("A", [Value.bits false 8 5])] : FnResults)
      [("A", [Value.bits false 8 5]),
        ("B", [Value.bits false 8 5, Value.bits false 8 5])] ∧
    compareResultsFunction
      [("A", [Value.bits false 8 5]),
        ("B", [Value.bits false 8 5, Value.bits false 8 5])]
      (some [[Value.bits false 8 5]]) = .error (.lengthMismatch "A" 1 "B" 2) ∧
    compareResultsFunction
      [("B", [Value.bits false 8 5, Value.bits false 8 5]),
        ("A", [Value.bits false 8 5])]
      (some [[Value.bits false 8 5]]) = .error .assertionError ∧
    FnError.lengthMismatch "A" 1 "B" 2 ≠ FnError.assertionError :=
  ⟨List.Perm.swap ("A", [Value.bits false 8 5])
      ("B", [Value.bits false 8 5, Value.bits false 8 5]) [],
    rfl, rfl, by simp⟩

/-- **C1 (amended).** The comparators select the lexicographically
smallest stage as reference and scan the rest in lexicographic order, so
their outcome is a function of the mapping's contents alone, independent
of insertion order — in function mode provided the internal length
assertion cannot fire (no args batch, or an empty one, or every stage's
sequence length equal to the batch length), and in proc mode
unconditionally. -/
theorem c1_comparator_order_independent :
    (∀ (results1 results2 : FnResults) (args : Option ArgsBatch),
      results1.Perm results2 → (results1.map Prod.fst).Nodup →
      (∀ b, args = some b → b ≠ [] → ∀ p ∈ results1, p.2.length = b.length) →
      compareResultsFunction results1 args = compareResultsFunction results2 args) ∧
    (∀ results1 results2 : ProcResults, results1.Perm results2 →
      (results1.map Prod.fst).Nodup →
      compareResultsProc results1 = compareResultsProc results2) := by
  constructor
  · intro results1 results2 args hperm hnd hcons
    by_cases hemp : results1 = []
    · subst hemp
      rw [hperm.symm.eq_nil]
    · have hemp2 : results2 ≠ [] := fun h2 => hemp (by rw [h2] at hperm; exact hperm.eq_nil)
      have hie1 : results1.isEmpty = false := by simpa [List.isEmpty_iff] using hemp
      have hie2 : results2.isEmpty = false := by simpa [List.isEmpty_iff] using hemp2
      have hok1 : fnAssertOk results1 args = true := by
        cases args with
        | none => rfl
        | some b =>
            by_cases hb : b = []
            · subst hb; rfl
            · cases results1 with
              | nil => exact absurd rfl hemp
              | cons p ps =>
                  have hp : p.2.length = b.length :=
                    hcons b rfl hb p (List.mem_cons_self p ps)
                  simp [fnAssertOk, hp]
      have hok2 : fnAssertOk results2 args = true := by
        cases args with
        | none => rfl
        | some b =>
            by_cases hb : b = []
            · subst hb; rfl
            · cases hr2 : results2 with
              | nil => exact absurd hr2 hemp2
              | cons p ps =>
                  have hp : p.2.length = b.length := by
                    refine hcons b rfl hb p ?_
                    rw [hperm.mem_iff, hr2]
                    exact List.mem_cons_self p ps
                  simp [fnAssertOk, hp]
      have hkeys : List.insertionSort strLeRel (results1.map Prod.fst) =
          List.insertionSort strLeRel (results2.map Prod.fst) :=
        insertionSort_eq_of_perm (hperm.map Prod.fst)
      simp only [compareResultsFunction, hie1, hie2, hok1, hok2]
      simp only [Bool.false_eq_true, if_false, if_true]
      rw [hkeys]
      split
      · rfl
      · exact compareAgainst_eq_of_perm args _ hperm hnd _
  · intro results1 results2 hperm hnd
    by_cases hemp : results1 = []
    · subst hemp
      rw [hperm.symm.eq_nil]
    · have hemp2 : results2 ≠ [] := fun h2 => hemp (by rw [h2] at hperm; exact hperm.eq_nil)
      have hie1 : results1.isEmpty = false := by simpa [List.isEmpty_iff] using hemp
      have hie2 : results2.isEmpty = false := by simpa [List.isEmpty_iff] using hemp2
      have hkeys : List.insertionSort strLeRel (results1.map Prod.fst) =
          List.insertionSort strLeRel (results2.map Prod.fst) :=
        insertionSort_eq_of_perm (hperm.map Prod.fst)
      simp only [compareResultsProc, hie1, hie2]
      simp only [Bool.false_eq_true, if_false]
      rw [hkeys]
      split
      · rfl
      · exact compareStagesProc_eq_of_perm _ hperm hnd _

/-- Witness for the amended C1 theorem at a concrete two-stage mapping in
each mode. -/
theorem c1_comparator_order_independent_witness :
    compareResultsFunction
      [("B", [Value.bits false 8 5]), ("A", [Value.bits false 8 5])] none =
      compareResultsFunction
        [("A", [Value.bits false 8 5]), ("B", [Value.bits false 8 5])] none ∧
    compareResultsProc [("B", [("c", [])]), ("A", [("c", [])])] =
      compareResultsProc [("A", [("c", [])]), ("B", [("c", [])])] :=
  ⟨c1_comparator_order_independent.1 _ _ none
      (List.Perm.swap ("A", [Value.bits false 8 5]) ("B", [Value.bits false 8 5]) [])
      (by decide) (fun b hb => nomatch hb),
    c1_comparator_order_independent.2 _ _
      (List.Perm.swap ("A", [("c", [])]) ("B", [("c", [])]) []) (by decide)⟩

/-- Witness for C4 at a one-stage mapping with a one-row batch. -/
theorem c4_args_batch_assert_witness :
    compareResultsFunction [("A", [Value.bits false 8 5])]
      (some [[Value.bits false 8 5]]) ≠ .error .assertionError ∧
    compareResultsFunction [("B", [Value.bits false 8 5, Value.bits false 8 5])]
      (some [[Value.bits false 8 5]]) = .error .assertionError :=
  ⟨(c4_args_batch_assert [("A", [Value.bits false 8 5])] [[Value.bits false 8 5]]
      (by simp) (by simp)).1
      (by
        intro p hp
        simp only [List.mem_singleton] at hp
        subst hp
        rfl),
    (c4_args_batch_assert [("B", [Value.bits false 8 5, Value.bits false 8 5])]
      [[Value.bits false 8 5]] (by simp) (by simp)).2 (by decide)⟩

/-- Witness for C3: two stages of lengths 1 and 2 with no batch. -/
theorem c3_length_mismatch_raises_witness :
    compareResultsFunction
      [("A", [Value.bits false 8 5]),
        ("B", [Value.bits false 8 5, Value.bits false 8 5])] none =
      .error (.lengthMismatch "A" 1 "B" 2) :=
  c3_length_mismatch_raises
    [("A", [Value.bits false 8 5]), ("B", [Value.bits false 8 5, Value.bits false 8 5])]
    none "A" "B" [] [] rfl rfl (by simp) (by decide)

/-- Witness for C2: the spec's Scenario B (`bits[8]:5` against
`bits[8]:6`, one row, the second value signed-tagged). -/
theorem c2_miscompare_diagnostic_witness :
    compareResultsFunction
      [("A", [Value.bits false 8 5]), ("B", [Value.bits true 8 6])]
      (some [[Value.bits false 8 5]]) =
      .error (.miscompare 0 "bits[8]:0x5" ["A"] "bits[8]:0x5" ["B"] "bits[8]:0x6") :=
  (c2_miscompare_diagnostic
    [("A", [Value.bits false 8 5]), ("B", [Value.bits true 8 6])]
    (some [[Value.bits false 8 5]]) "A" "B" [] [] 0
    (Value.bits false 8 5) (Value.bits true 8 6)
    rfl rfl (by simp) (by decide) rfl (by decide)).1

/-- Witness for C5: channel `y` present in stage `A`, absent from stage
`B` (which has an extra channel `z`), all other channels matching. -/
theorem c5_missing_channel_raises_witness :
    compareResultsProc
      [("A", [("x", [Value.bits false 8 5]), ("y", [])]),
        ("B", [("x", [Value.bits false 8 5]), ("z", [])])] =
      .error (.missingChannel "y" "A" "B") ∧
    namesMissingChannel (.missingChannel "y" "A" "B") "y" "A" "B" := by
  have hev : compareResultsProc
      [("A", [("x", [Value.bits false 8 5]), ("y", [])]),
        ("B", [("x", [Value.bits false 8 5]), ("z", [])])] =
      .error (.missingChannel "y" "A" "B") := rfl
  obtain ⟨e, he, hn⟩ := c5_missing_channel_raises
    [("A", [("x", [Value.bits false 8 5]), ("y", [])]),
      ("B", [("x", [Value.bits false 8 5]), ("z", [])])]
    "A" "B" [] [] "y" rfl (by simp) (by decide) rfl
    (by
      intro d vs hmem hne
      have hmem2 : (d, vs) ∈
          [("x", [Value.bits false 8 5]), ("y", ([] : List Value))] := hmem
      simp only [List.mem_cons, List.mem_singleton, Prod.mk.injEq] at hmem2
      rcases hmem2 with ⟨hd, hv⟩ | h2
      · subst hd
        subst hv
        exact ⟨[Value.bits false 8 5], rfl, rfl, rfl⟩
      · rcases h2 with ⟨hd, hv⟩ | h3
        · exact absurd hd hne
        · exact absurd h3 (List.not_mem_nil (d, vs)))
  rw [hev] at he
  injection he with h
  subst h
  exact ⟨hev, hn⟩

/-! ### Pipeline lemmas -/

@[simp]
theorem PipeState.trace_write (st : PipeState ρ) (n c : String) :
    (st.write n c).trace = st.trace := rfl

@[simp]
theorem PipeState.trace_record (st : PipeState ρ) (n : String) (r : ρ) :
    (st.record n r).trace = st.trace := rfl

@[simp]
theorem PipeState.trace_act (st : PipeState ρ) (a : RunAction) :
    (st.act a).trace = st.trace ++ [a] := rfl

@[simp]
theorem PipeState.writes_write (st : PipeState ρ) (n c : String) :
    (st.write n c).writes = st.writes ++ [(n, c)] := rfl

@[simp]
theorem PipeState.writes_record (st : PipeState ρ) (n : String) (r : ρ) :
    (st.record n r).writes = st.writes := rfl

@[simp]
theorem PipeState.writes_act (st : PipeState ρ) (a : RunAction) :
    (st.act a).writes = st.writes := rfl

theorem isTimeoutExn_iff (e : Exn) :
    isTimeoutExn e = true ↔ ∃ m, e = .timeoutExpired m := by
  cases e <;> simp [isTimeoutExn]

/-- **C6.** Whenever any stage of the pipeline raises any failure — the
stage portion of `_run_function` or `_run_proc` yields an exception `e` —
the partial ResultSet is never compared, the normalized message of `e` is
persisted as `exception.txt`, and the caller receives exactly one unified
`SampleError` carrying that message and an `is_timeout` flag that is true
iff `e` was a `subprocess.TimeoutExpired`. -/
theorem c6_unified_failure (env : Env) (options : SampleOptions)
    (argsFilename irChannelNamesFilename procInitValuesFilename : Option String)
    (e : Exn)
    (hfail : (options.topType = .function ∧
        (runFunctionPipeline env options argsFilename).2 = .error e) ∨
      (options.topType = .proc ∧
        (runProcPipeline env options argsFilename irChannelNamesFilename
          procInitValuesFilename).2 = .error e)) :
    (runFromFiles env options argsFilename irChannelNamesFilename
        procInitValuesFilename).compared = false ∧
    ("exception.txt", msgOf e) ∈ (runFromFiles env options argsFilename
        irChannelNamesFilename procInitValuesFilename).writes ∧
    (runFromFiles env options argsFilename irChannelNamesFilename
        procInitValuesFilename).outcome = .error ⟨msgOf e, isTimeoutExn e⟩ ∧
    (isTimeoutExn e = true ↔ ∃ m, e = .timeoutExpired m) := by
  rcases hfail with ⟨htop, hpipe⟩ | ⟨htop, hpipe⟩
  · cases hrp : runFunctionPipeline env options argsFilename with
    | mk st r =>
        rw [hrp] at hpipe
        simp only at hpipe
        subst hpipe
        refine ⟨?_, ?_, ?_, isTimeoutExn_iff e⟩
        · simp [runFromFiles, htop, runFunctionStage, hrp]
        · simp [runFromFiles, htop, runFunctionStage, hrp, List.mem_append]
        · simp [runFromFiles, htop, runFunctionStage, hrp]
  · cases hrp : runProcPipeline env options argsFilename irChannelNamesFilename
        procInitValuesFilename with
    | mk st r =>
        rw [hrp] at hpipe
        simp only at hpipe
        subst hpipe
        refine ⟨?_, ?_, ?_, isTimeoutExn_iff e⟩
        · simp [runFromFiles, htop, runProcStage, hrp]
        · simp [runFromFiles, htop, runProcStage, hrp, List.mem_append]
        · simp [runFromFiles, htop, runProcStage, hrp]

/-- Witness for C6: the function pipeline with an args file whose IR
evaluation times out. -/
theorem c6_unified_failure_witness :
    (runFromFiles timeoutEnv
        ⟨.function, false, true, false, false, false, false, false⟩
        (some "args.txt") none none).compared = false ∧
    ("exception.txt", msgOf (.timeoutExpired "timed out")) ∈
      (runFromFiles timeoutEnv
        ⟨.function, false, true, false, false, false, false, false⟩
        (some "args.txt") none none).writes ∧
    (runFromFiles timeoutEnv
        ⟨.function, false, true, false, false, false, false, false⟩
        (some "args.txt") none none).outcome =
      .error ⟨msgOf (.timeoutExpired "timed out"),
        isTimeoutExn (.timeoutExpired "timed out")⟩ ∧
    (isTimeoutExn (.timeoutExpired "timed out") = true ↔
      ∃ m, (Exn.timeoutExpired "timed out") = .timeoutExpired m) :=
  c6_unified_failure timeoutEnv
    ⟨.function, false, true, false, false, false, false, false⟩
    (some "args.txt") none none (.timeoutExpired "timed out")
    (Or.inl ⟨rfl, rfl⟩)


theorem fnEvalCall_extends (env : Env) (st : FnState) (irFile : String)
    (useJit : Bool) (key : String) :
    ∀ st1 r, fnEvalCall env st irFile useJit key = (st1, r) →
      ∃ lw, st1.trace = st.trace ++ [.evalIrFunction irFile useJit] ∧
        st1.writes = st.writes ++ lw := by
  unfold fnEvalCall
  cases env.evalIrFunction irFile useJit with
  | error e =>
      intro st1 r h
      cases h
      exact ⟨[], by simp, by simp⟩
  | ok vals =>
      intro st1 r h
      cases h
      exact ⟨[(irFile ++ ".results", valuesToText vals)], by simp, by simp⟩

theorem fnUnoptEvalPhase_extends (env : Env) (options : SampleOptions)
    (argsFilename : Option String) (st : FnState) :
    ∀ st3 r, fnUnoptEvalPhase env options argsFilename st = (st3, r) →
      ∃ lt lw, st3.trace = st.trace ++ lt ∧ st3.writes = st.writes ++ lw ∧
        (options.useJit = false → ∀ g, RunAction.evalIrFunction g true ∉ lt) := by
  unfold fnUnoptEvalPhase
  by_cases hs : argsFilename.isSome = true
  swap
  · have hs2 : argsFilename.isSome = false := by simpa using hs
    simp only [hs2, Bool.false_eq_true, if_false]
    intro st3 r h
    cases h
    exact ⟨[], [], by simp, by simp, fun _ g => by simp⟩
  simp only [hs, if_true]
  cases hc1 : fnEvalCall env st "sample.ir" false "evaluated unopt IR (interpreter)" with
  | mk st1 r1 =>
      obtain ⟨lw1, ht1, hw1⟩ :=
        fnEvalCall_extends env st "sample.ir" false "evaluated unopt IR (interpreter)"
          st1 r1 hc1
      cases r1 with
      | error e =>
          intro st3 r h
          cases h
          exact ⟨[.evalIrFunction "sample.ir" false], lw1, ht1, hw1, fun _ g => by simp⟩
      | ok u =>
          cases u
          by_cases hj : options.useJit = true
          · simp only [hj, if_true]
            intro st3 r h
            obtain ⟨lw2, ht2, hw2⟩ :=
              fnEvalCall_extends env st1 "sample.ir" true "evaluated unopt IR (JIT)" st3 r h
            refine ⟨[.evalIrFunction "sample.ir" false, .evalIrFunction "sample.ir" true],
              lw1 ++ lw2, ?_, ?_, ?_⟩
            · rw [ht2, ht1]
              simp
            · rw [hw2, hw1]
              simp
            · intro hfalse
              simp at hfalse
          · have hj2 : options.useJit = false := by simpa using hj
            simp only [hj2, Bool.false_eq_true, if_false]
            intro st3 r h
            cases h
            exact ⟨[.evalIrFunction "sample.ir" false], lw1, ht1, hw1, fun _ g => by simp⟩



@[simp]
theorem pipeThen_error (st : PipeState ρ) (e : Exn)
    (k : PipeState ρ → PipeState ρ × Except Exn β) :
    pipeThen (st, .error e) k = (st, .error e) := rfl

@[simp]
theorem pipeThen_ok (st : PipeState ρ) (k : PipeState ρ → PipeState ρ × Except Exn β) :
    pipeThen (st, .ok ()) k = k st := rfl

@[simp]
theorem stepRun_error (st : PipeState ρ) (a : RunAction) (e : Exn)
    (k : PipeState ρ → α → PipeState ρ × Except Exn β) :
    stepRun st a (.error e) k = (st.act a, .error e) := rfl

@[simp]
theorem stepRun_ok (st : PipeState ρ) (a : RunAction) (v : α)
    (k : PipeState ρ → α → PipeState ρ × Except Exn β) :
    stepRun st a (.ok v) k = k (st.act a) v := rfl

theorem fnCodegenPhase_extends (env : Env) (options : SampleOptions)
    (argsFilename : Option String) (st : FnState) :
    ∀ st3 r, fnCodegenPhase env options argsFilename st = (st3, r) →
      ∃ lt lw, st3.trace = st.trace ++ lt ∧ st3.writes = st.writes ++ lw ∧
        ∀ g b, RunAction.evalIrFunction g b ∉ lt := by
  unfold fnCodegenPhase
  by_cases hcg : options.codegen = true
  swap
  · rw [if_neg hcg]
    intro st3 r h
    cases h
    exact ⟨[], [], by simp, by simp, fun g b => by simp⟩
  rw [if_pos hcg]
  cases hcgr : env.runCodegen with
  | error e =>
      rw [stepRun_error]
      intro st3 r h
      cases h
      exact ⟨[.codegenAction "sample.opt.ir"], [], by simp, by simp, fun g b => by simp⟩
  | ok verilogText =>
      rw [stepRun_ok]
      set vfile := if options.useSystemVerilog = true then "sample.sv" else "sample.v"
        with hvf
      by_cases hsim : options.simulate = true
      swap
      · rw [if_neg hsim]
        intro st3 r h
        cases h
        exact ⟨[.codegenAction "sample.opt.ir"], [(vfile, verilogText)],
          by simp, by simp, fun g b => by simp⟩
      rw [if_pos hsim]
      by_cases hs : argsFilename.isSome = true
      swap
      · rw [if_neg hs]
        intro st3 r h
        cases h
        exact ⟨[.codegenAction "sample.opt.ir"], [(vfile, verilogText)],
          by simp, by simp, fun g b => by simp⟩
      rw [if_pos hs]
      cases hsimr : env.simulateFunction with
      | error e =>
          rw [stepRun_error]
          intro st3 r h
          cases h
          exact ⟨[.codegenAction "sample.opt.ir", .simulateFunction vfile],
            [(vfile, verilogText)], by simp, by simp, fun g b => by simp⟩
      | ok vals =>
          rw [stepRun_ok]
          intro st3 r h
          cases h
          exact ⟨[.codegenAction "sample.opt.ir", .simulateFunction vfile],
            [(vfile, verilogText), (vfile ++ ".results", valuesToText vals)],
            by simp, by simp, fun g b => by simp⟩

theorem fnOptPhase_extends (env : Env) (options : SampleOptions)
    (argsFilename : Option String) (st : FnState) :
    ∀ st3 r, fnOptPhase env options argsFilename st = (st3, r) →
      ∃ lt lw, st3.trace = st.trace ++ lt ∧ st3.writes = st.writes ++ lw ∧
        (options.useJit = false → ∀ g, RunAction.evalIrFunction g true ∉ lt) := by
  unfold fnOptPhase
  by_cases ho : options.optimizeIr = true
  swap
  · rw [if_neg ho]
    intro st3 r h
    cases h
    exact ⟨[], [], by simp, by simp, fun _ g => by simp⟩
  rw [if_pos ho]
  cases hopt : env.optimizeIr with
  | error e =>
      rw [stepRun_error]
      intro st3 r h
      cases h
      exact ⟨[.optimizeIrAction "sample.ir"], [], by simp, by simp, fun _ g => by simp⟩
  | ok optText =>
      rw [stepRun_ok]
      set st2 : FnState :=
        (st.act (.optimizeIrAction "sample.ir")).write "sample.opt.ir" optText with hst2
      have ht2 : st2.trace = st.trace ++ [.optimizeIrAction "sample.ir"] := by
        rw [hst2]
        simp
      have hw2 : st2.writes = st.writes ++ [("sample.opt.ir", optText)] := by
        rw [hst2]
        simp
      have hmain : ∀ st4 : FnState,
          (∃ lt4 lw4, st4.trace = st2.trace ++ lt4 ∧ st4.writes = st2.writes ++ lw4 ∧
            (options.useJit = false → ∀ g, RunAction.evalIrFunction g true ∉ lt4)) →
          ∀ st3 r, fnCodegenPhase env options argsFilename st4 = (st3, r) →
          ∃ lt lw, st3.trace = st.trace ++ lt ∧ st3.writes = st.writes ++ lw ∧
            (options.useJit = false → ∀ g, RunAction.evalIrFunction g true ∉ lt) := by
        intro st4 hext st3 r h
        obtain ⟨lt4, lw4, ht4, hw4, hnj4⟩ := hext
        obtain ⟨lt5, lw5, ht5, hw5, hnj5⟩ := fnCodegenPhase_extends env options
          argsFilename st4 st3 r h
        refine ⟨[.optimizeIrAction "sample.ir"] ++ lt4 ++ lt5,
          [("sample.opt.ir", optText)] ++ lw4 ++ lw5, ?_, ?_, ?_⟩
        · rw [ht5, ht4, ht2]
          simp
        · rw [hw5, hw4, hw2]
          simp
        · intro hj g hmem
          simp only [List.mem_append, List.mem_singleton] at hmem
          rcases hmem with (heq | hmem4) | hmem5
          · cases heq
          · exact hnj4 hj g hmem4
          · exact hnj5 g true hmem5
      by_cases hs : argsFilename.isSome = true
      swap
      · intro st3 r h
        simp only [if_neg hs, pipeThen_ok] at h
        exact hmain st2 ⟨[], [], by simp, by simp, fun _ g => by simp⟩ st3 r h
      by_cases hj : options.useJit = true
      · cases hc4 : fnEvalCall env st2 "sample.opt.ir" true "evaluated opt IR (JIT)" with
        | mk st4 r4 =>
            obtain ⟨lw4, ht4, hw4⟩ :=
              fnEvalCall_extends env st2 "sample.opt.ir" true "evaluated opt IR (JIT)"
                st4 r4 hc4
            cases r4 with
            | error e =>
                intro st3 r h
                simp only [if_pos hs, if_pos hj, hc4, pipeThen_error] at h
                cases h
                refine ⟨[.optimizeIrAction "sample.ir", .evalIrFunction "sample.opt.ir" true],
                  [("sample.opt.ir", optText)] ++ lw4, ?_, ?_, ?_⟩
                · rw [ht4, ht2]
                  simp
                · rw [hw4, hw2]
                  simp
                · intro hf
                  rw [hf] at hj
                  simp at hj
            | ok u =>
                cases u
                cases hc5 : fnEvalCall env st4 "sample.opt.ir" false
                    "evaluated opt IR (interpreter)" with
                | mk st5 r5 =>
                    obtain ⟨lw5, ht5, hw5⟩ := fnEvalCall_extends env st4 "sample.opt.ir"
                      false "evaluated opt IR (interpreter)" st5 r5 hc5
                    cases r5 with
                    | error e =>
                        intro st3 r h
                        simp only [if_pos hs, if_pos hj, hc4, pipeThen_ok, hc5,
                          pipeThen_error] at h
                        cases h
                        refine ⟨[.optimizeIrAction "sample.ir",
                            .evalIrFunction "sample.opt.ir" true,
                            .evalIrFunction "sample.opt.ir" false],
                          [("sample.opt.ir", optText)] ++ lw4 ++ lw5, ?_, ?_, ?_⟩
                        · rw [ht5, ht4, ht2]
                          simp
                        · rw [hw5, hw4, hw2]
                          simp
                        · intro hf
                          rw [hf] at hj
                          simp at hj
                    | ok u =>
                        cases u
                        intro st3 r h
                        simp only [if_pos hs, if_pos hj, hc4, pipeThen_ok, hc5] at h
                        refine hmain st5
                          ⟨[.evalIrFunction "sample.opt.ir" true,
                            .evalIrFunction "sample.opt.ir" false], lw4 ++ lw5, ?_, ?_, ?_⟩
                          st3 r h
                        · rw [ht5, ht4]
                          simp
                        · rw [hw5, hw4]
                          simp
                        · intro hf
                          rw [hf] at hj
                          simp at hj
      · cases hc4 : fnEvalCall env st2 "sample.opt.ir" false
            "evaluated opt IR (interpreter)" with
        | mk st4 r4 =>
            obtain ⟨lw4, ht4, hw4⟩ := fnEvalCall_extends env st2 "sample.opt.ir" false
              "evaluated opt IR (interpreter)" st4 r4 hc4
            cases r4 with
            | error e =>
                intro st3 r h
                simp only [if_pos hs, if_neg hj, hc4, pipeThen_error] at h
                cases h
                refine ⟨[.optimizeIrAction "sample.ir",
                    .evalIrFunction "sample.opt.ir" false],
                  [("sample.opt.ir", optText)] ++ lw4, ?_, ?_, ?_⟩
                · rw [ht4, ht2]
                  simp
                · rw [hw4, hw2]
                  simp
                · intro hf g hmem
                  simp at hmem
            | ok u =>
                cases u
                intro st3 r h
                simp only [if_pos hs, if_neg hj, hc4, pipeThen_ok] at h
                exact hmain st4
                  ⟨[.evalIrFunction "sample.opt.ir" false], lw4, ht4, hw4,
                    fun _ g => by simp⟩ st3 r h

theorem fnReadArgs_state (env : Env) (argsFilename : Option String) (st : FnState) :
    ∀ st1 r, fnReadArgs env argsFilename st = (st1, r) → st1 = st := by
  unfold fnReadArgs
  by_cases ht : fileTruthy argsFilename = true
  · rw [if_pos ht]
    cases env.parseArgsBatch with
    | error e =>
        intro st1 r h
        cases h
        rfl
    | ok b =>
        intro st1 r h
        cases h
        rfl
  · rw [if_neg ht]
    intro st1 r h
    cases h
    rfl

theorem fnDslxPhase_extends (env : Env) (options : SampleOptions)
    (argsBatch : Option ArgsBatch) (st : FnState) :
    ∀ st1 r, fnDslxPhase env options argsBatch st = (st1, r) →
      ∃ lt lw, st1.trace = st.trace ++ lt ∧ st1.writes = st.writes ++ lw ∧
        ∀ g b, RunAction.evalIrFunction g b ∉ lt := by
  unfold fnDslxPhase
  by_cases hd : options.inputIsDslx = true
  swap
  · rw [if_neg hd]
    intro st1 r h
    cases h
    exact ⟨[], [("sample.ir", env.inputText)], by simp, by simp, fun g b => by simp⟩
  rw [if_pos hd]
  by_cases hb : batchTruthy argsBatch = true
  · cases hint : env.interpretDslxFunction with
    | error e =>
        intro st1 r h
        simp only [if_pos hb, hint, stepRun_error, pipeThen_error] at h
        cases h
        exact ⟨[.interpretDslxFunction], [], by simp, by simp, fun g b => by simp⟩
    | ok vals =>
        by_cases hc : (!options.convertToIr) = true
        · intro st1 r h
          simp only [if_pos hb, hint, stepRun_ok, pipeThen_ok, if_pos hc] at h
          cases h
          exact ⟨[.interpretDslxFunction],
            [("sample.x.results", valuesToText vals)], by simp, by simp,
            fun g b => by simp⟩
        · cases hconv : env.dslxToIrFunction with
          | error e =>
              intro st1 r h
              simp only [if_pos hb, hint, stepRun_ok, pipeThen_ok, if_neg hc, hconv,
                stepRun_error] at h
              cases h
              exact ⟨[.interpretDslxFunction, .convertDslxToIr],
                [("sample.x.results", valuesToText vals)], by simp, by simp,
                fun g b => by simp⟩
          | ok irText =>
              intro st1 r h
              simp only [if_pos hb, hint, stepRun_ok, pipeThen_ok, if_neg hc, hconv,
                stepRun_ok] at h
              cases h
              exact ⟨[.interpretDslxFunction, .convertDslxToIr],
                [("sample.x.results", valuesToText vals), ("sample.ir", irText)],
                by simp, by simp, fun g b => by simp⟩
  · by_cases hc : (!options.convertToIr) = true
    · intro st1 r h
      simp only [if_neg hb, pipeThen_ok, if_pos hc] at h
      cases h
      exact ⟨[], [], by simp, by simp, fun g b => by simp⟩
    · cases hconv : env.dslxToIrFunction with
      | error e =>
          intro st1 r h
          simp only [if_neg hb, pipeThen_ok, if_neg hc, hconv, stepRun_error] at h
          cases h
          exact ⟨[.convertDslxToIr], [], by simp, by simp, fun g b => by simp⟩
      | ok irText =>
          intro st1 r h
          simp only [if_neg hb, pipeThen_ok, if_neg hc, hconv, stepRun_ok] at h
          cases h
          exact ⟨[.convertDslxToIr], [("sample.ir", irText)], by simp, by simp,
            fun g b => by simp⟩

theorem fnUnoptEvalPhase_logs (env : Env) (options : SampleOptions) (f : String)
    (st : FnState) :
    ∀ st3 r, fnUnoptEvalPhase env options (some f) st = (st3, r) →
      RunAction.evalIrFunction "sample.ir" false ∈ st3.trace := by
  unfold fnUnoptEvalPhase
  cases hc1 : fnEvalCall env st "sample.ir" false "evaluated unopt IR (interpreter)" with
  | mk st1 r1 =>
      obtain ⟨lw1, ht1, hw1⟩ :=
        fnEvalCall_extends env st "sample.ir" false "evaluated unopt IR (interpreter)"
          st1 r1 hc1
      have hmem1 : RunAction.evalIrFunction "sample.ir" false ∈ st1.trace := by
        rw [ht1]
        simp
      cases r1 with
      | error e =>
          intro st3 r h
          simp only [Option.isSome_some, if_pos, pipeThen_error] at h
          cases h
          exact hmem1
      | ok u =>
          cases u
          by_cases hj : options.useJit = true
          · cases hc2 : fnEvalCall env st1 "sample.ir" true "evaluated unopt IR (JIT)" with
            | mk st2 r2 =>
                obtain ⟨lw2, ht2, hw2⟩ :=
                  fnEvalCall_extends env st1 "sample.ir" true "evaluated unopt IR (JIT)"
                    st2 r2 hc2
                intro st3 r h
                simp only [Option.isSome_some, if_pos, pipeThen_ok, if_pos hj, hc2] at h
                cases h
                rw [ht2]
                exact List.mem_append_left _ hmem1
          · intro st3 r h
            simp only [Option.isSome_some, if_pos, pipeThen_ok, if_neg hj] at h
            cases h
            exact hmem1

theorem procReadInputs_state (env : Env)
    (argsFilename irChannelNamesFilename procInitValuesFilename : Option String)
    (st : ProcState) :
    ∀ st1 r, procReadInputs env argsFilename irChannelNamesFilename
      procInitValuesFilename st = (st1, r) → st1 = st := by
  unfold procReadInputs
  intro st1 r h
  repeat' split at h
  all_goals cases h
  all_goals rfl

theorem procEvalCall_extends (env : Env) (st : ProcState) (irFile : String)
    (useJit : Bool) (argsBatch : Option ArgsBatch)
    (irChannelNames : Option (List String)) (key : String) :
    ∀ st1 r, procEvalCall env st irFile useJit argsBatch irChannelNames key = (st1, r) →
      ∃ lt lw, st1.trace = st.trace ++ lt ∧ st1.writes = st.writes ++ lw ∧
        (lt = [] ∨ lt = [.evalIrProc irFile useJit]) := by
  unfold procEvalCall
  cases irChannelNames with
  | none =>
      intro st1 r h
      cases h
      exact ⟨[], [], by simp, by simp, Or.inl rfl⟩
  | some names =>
      cases argsBatch with
      | none =>
          intro st1 r h
          cases h
          exact ⟨[], [], by simp, by simp, Or.inl rfl⟩
      | some batch =>
          by_cases hrows : (batch.all fun row => row.length == names.length) = true
          swap
          · intro st1 r h
            simp only [if_neg hrows] at h
            cases h
            exact ⟨[], [], by simp, by simp, Or.inl rfl⟩
          cases hov : env.evalIrProc irFile useJit with
          | error e =>
              intro st1 r h
              simp only [if_pos hrows, hov, stepRun_error] at h
              cases h
              exact ⟨[.evalIrProc irFile useJit],
                [("channel_inputs.txt",
                  channelValuesToString (transposeBatch names batch))],
                by simp, by simp, Or.inr rfl⟩
          | ok cm =>
              intro st1 r h
              simp only [if_pos hrows, hov, stepRun_ok] at h
              cases h
              exact ⟨[.evalIrProc irFile useJit],
                [("channel_inputs.txt",
                  channelValuesToString (transposeBatch names batch)),
                  (irFile ++ ".results", channelValuesToString cm)],
                by simp, by simp, Or.inr rfl⟩

theorem procDslxPhase_extends (env : Env) (options : SampleOptions)
    (argsBatch : Option ArgsBatch) (procInitValues : Option (List Value))
    (st : ProcState) :
    ∀ st1 r, procDslxPhase env options argsBatch procInitValues st = (st1, r) →
      ∃ lt lw, st1.trace = st.trace ++ lt ∧ st1.writes = st.writes ++ lw ∧
        ∀ g b, RunAction.evalIrProc g b ∉ lt := by
  unfold procDslxPhase
  by_cases hd : options.inputIsDslx = true
  swap
  · rw [if_neg hd]
    intro st1 r h
    cases h
    exact ⟨[], [("sample.ir", env.inputText)], by simp, by simp, fun g b => by simp⟩
  rw [if_pos hd]
  by_cases hb : batchTruthy argsBatch = true
  · cases hint : env.interpretDslxProc with
    | error e =>
        intro st1 r h
        simp only [if_pos hb, hint, stepRun_error, pipeThen_error] at h
        cases h
        exact ⟨[.interpretDslxProc], [], by simp, by simp, fun g b => by simp⟩
    | ok cm =>
        by_cases hc : (!options.convertToIr) = true
        · intro st1 r h
          simp only [if_pos hb, hint, stepRun_ok, pipeThen_ok, if_pos hc] at h
          cases h
          exact ⟨[.interpretDslxProc],
            [("sample.x.results", channelValuesToString cm)], by simp, by simp,
            fun g b => by simp⟩
        · cases procInitValues with
          | none =>
              intro st1 r h
              simp only [if_pos hb, hint, stepRun_ok, pipeThen_ok, if_neg hc] at h
              cases h
              exact ⟨[.interpretDslxProc],
                [("sample.x.results", channelValuesToString cm)], by simp, by simp,
                fun g b => by simp⟩
          | some pis =>
              cases hconv : env.dslxToIrProc with
              | error e =>
                  intro st1 r h
                  simp only [if_pos hb, hint, stepRun_ok, pipeThen_ok, if_neg hc, hconv,
                    stepRun_error] at h
                  cases h
                  exact ⟨[.interpretDslxProc, .convertDslxToIr],
                    [("sample.x.results", channelValuesToString cm)], by simp, by simp,
                    fun g b => by simp⟩
              | ok irText =>
                  intro st1 r h
                  simp only [if_pos hb, hint, stepRun_ok, pipeThen_ok, if_neg hc, hconv,
                    stepRun_ok] at h
                  cases h
                  exact ⟨[.interpretDslxProc, .convertDslxToIr],
                    [("sample.x.results", channelValuesToString cm), ("sample.ir", irText)],
                    by simp, by simp, fun g b => by simp⟩
  · by_cases hc : (!options.convertToIr) = true
    · intro st1 r h
      simp only [if_neg hb, pipeThen_ok, if_pos hc] at h
      cases h
      exact ⟨[], [], by simp, by simp, fun g b => by simp⟩
    · cases procInitValues with
      | none =>
          intro st1 r h
          simp only [if_neg hb, pipeThen_ok, if_neg hc] at h
          cases h
          exact ⟨[], [], by simp, by simp, fun g b => by simp⟩
      | some pis =>
          cases hconv : env.dslxToIrProc with
          | error e =>
              intro st1 r h
              simp only [if_neg hb, pipeThen_ok, if_neg hc, hconv, stepRun_error] at h
              cases h
              exact ⟨[.convertDslxToIr], [], by simp, by simp, fun g b => by simp⟩
          | ok irText =>
              intro st1 r h
              simp only [if_neg hb, pipeThen_ok, if_neg hc, hconv, stepRun_ok] at h
              cases h
              exact ⟨[.convertDslxToIr], [("sample.ir", irText)], by simp, by simp,
                fun g b => by simp⟩

theorem procUnoptEvalPhase_extends (env : Env) (options : SampleOptions)
    (argsFilename : Option String) (argsBatch : Option ArgsBatch)
    (irChannelNames : Option (List String)) (st : ProcState) :
    ∀ st3 r, procUnoptEvalPhase env options argsFilename argsBatch irChannelNames st =
        (st3, r) →
      ∃ lt lw, st3.trace = st.trace ++ lt ∧ st3.writes = st.writes ++ lw ∧
        (options.useJit = false → ∀ g, RunAction.evalIrProc g true ∉ lt) := by
  unfold procUnoptEvalPhase
  by_cases hs : argsFilename.isSome = true
  swap
  · rw [if_neg hs]
    intro st3 r h
    cases h
    exact ⟨[], [], by simp, by simp, fun _ g => by simp⟩
  cases hc1 : procEvalCall env st "sample.ir" false argsBatch irChannelNames
      "evaluated unopt IR (interpreter)" with
  | mk st1 r1 =>
      obtain ⟨lt1, lw1, ht1, hw1, hsh1⟩ := procEvalCall_extends env st "sample.ir" false
        argsBatch irChannelNames "evaluated unopt IR (interpreter)" st1 r1 hc1
      have hnj1 : ∀ g, RunAction.evalIrProc g true ∉ lt1 := by
        intro g hmem
        rcases hsh1 with rfl | rfl
        · simp at hmem
        · simp at hmem
      cases r1 with
      | error e =>
          intro st3 r h
          simp only [if_pos hs, hc1, pipeThen_error] at h
          cases h
          exact ⟨lt1, lw1, ht1, hw1, fun _ => hnj1⟩
      | ok u =>
          cases u
          by_cases hj : options.useJit = true
          · cases hc2 : procEvalCall env st1 "sample.ir" true argsBatch irChannelNames
                "evaluated unopt IR (JIT)" with
            | mk st2 r2 =>
                obtain ⟨lt2, lw2, ht2, hw2, hsh2⟩ := procEvalCall_extends env st1
                  "sample.ir" true argsBatch irChannelNames "evaluated unopt IR (JIT)"
                  st2 r2 hc2
                intro st3 r h
                simp only [if_pos hs, hc1, pipeThen_ok, if_pos hj, hc2] at h
                cases h
                refine ⟨lt1 ++ lt2, lw1 ++ lw2, ?_, ?_, ?_⟩
                · rw [ht2, ht1]
                  simp
                · rw [hw2, hw1]
                  simp
                · intro hf
                  rw [hf] at hj
                  simp at hj
          · intro st3 r h
            simp only [if_pos hs, hc1, pipeThen_ok, if_neg hj] at h
            cases h
            exact ⟨lt1, lw1, ht1, hw1, fun _ => hnj1⟩

theorem procCodegenPhase_extends (env : Env) (options : SampleOptions)
    (argsFilename : Option String) (st : ProcState) :
    ∀ st3 r, procCodegenPhase env options argsFilename st = (st3, r) →
      ∃ lt lw, st3.trace = st.trace ++ lt ∧ st3.writes = st.writes ++ lw ∧
        ∀ g b, RunAction.evalIrProc g b ∉ lt := by
  unfold procCodegenPhase
  by_cases hcg : options.codegen = true
  swap
  · rw [if_neg hcg]
    intro st3 r h
    cases h
    exact ⟨[], [], by simp, by simp, fun g b => by simp⟩
  rw [if_pos hcg]
  cases hcgr : env.runCodegen with
  | error e =>
      rw [stepRun_error]
      intro st3 r h
      cases h
      exact ⟨[.codegenAction "sample.opt.ir"], [], by simp, by simp, fun g b => by simp⟩
  | ok verilogText =>
      intro st3 r h
      simp only [stepRun_ok] at h
      set vfile := if options.useSystemVerilog = true then "sample.sv" else "sample.v"
        with hvf
      by_cases hsim : options.simulate = true
      swap
      · rw [if_neg hsim] at h
        cases h
        exact ⟨[.codegenAction "sample.opt.ir"], [(vfile, verilogText)],
          by simp, by simp, fun g b => by simp⟩
      rw [if_pos hsim] at h
      by_cases hs : argsFilename.isSome = true
      swap
      · rw [if_neg hs] at h
        cases h
        exact ⟨[.codegenAction "sample.opt.ir"], [(vfile, verilogText)],
          by simp, by simp, fun g b => by simp⟩
      rw [if_pos hs] at h
      cases h
      exact ⟨[.codegenAction "sample.opt.ir"], [(vfile, verilogText)],
        by simp, by simp, fun g b => by simp⟩

theorem procOptPhase_extends (env : Env) (options : SampleOptions)
    (argsFilename : Option String) (argsBatch : Option ArgsBatch)
    (irChannelNames : Option (List String)) (st : ProcState) :
    ∀ st3 r, procOptPhase env options argsFilename argsBatch irChannelNames st =
        (st3, r) →
      ∃ lt lw, st3.trace = st.trace ++ lt ∧ st3.writes = st.writes ++ lw ∧
        (options.useJit = false → ∀ g, RunAction.evalIrProc g true ∉ lt) := by
  unfold procOptPhase
  by_cases ho : options.optimizeIr = true
  swap
  · rw [if_neg ho]
    intro st3 r h
    cases h
    exact ⟨[], [], by simp, by simp, fun _ g => by simp⟩
  rw [if_pos ho]
  cases hopt : env.optimizeIr with
  | error e =>
      rw [stepRun_error]
      intro st3 r h
      cases h
      exact ⟨[.optimizeIrAction "sample.ir"], [], by simp, by simp, fun _ g => by simp⟩
  | ok optText =>
      rw [stepRun_ok]
      set st2 : ProcState :=
        (st.act (.optimizeIrAction "sample.ir")).write "sample.opt.ir" optText with hst2
      have ht2 : st2.trace = st.trace ++ [.optimizeIrAction "sample.ir"] := by
        rw [hst2]
        simp
      have hw2 : st2.writes = st.writes ++ [("sample.opt.ir", optText)] := by
        rw [hst2]
        simp
      have hmain : ∀ st4 : ProcState,
          (∃ lt4 lw4, st4.trace = st2.trace ++ lt4 ∧ st4.writes = st2.writes ++ lw4 ∧
            (options.useJit = false → ∀ g, RunAction.evalIrProc g true ∉ lt4)) →
          ∀ st3 r, procCodegenPhase env options argsFilename st4 = (st3, r) →
          ∃ lt lw, st3.trace = st.trace ++ lt ∧ st3.writes = st.writes ++ lw ∧
            (options.useJit = false → ∀ g, RunAction.evalIrProc g true ∉ lt) := by
        intro st4 hext st3 r h
        obtain ⟨lt4, lw4, ht4, hw4, hnj4⟩ := hext
        obtain ⟨lt5, lw5, ht5, hw5, hnj5⟩ := procCodegenPhase_extends env options
          argsFilename st4 st3 r h
        refine ⟨[.optimizeIrAction "sample.ir"] ++ lt4 ++ lt5,
          [("sample.opt.ir", optText)] ++ lw4 ++ lw5, ?_, ?_, ?_⟩
        · rw [ht5, ht4, ht2]
          simp
        · rw [hw5, hw4, hw2]
          simp
        · intro hj g hmem
          simp only [List.mem_append, List.mem_singleton] at hmem
          rcases hmem with (heq | hmem4) | hmem5
          · cases heq
          · exact hnj4 hj g hmem4
          · exact hnj5 g true hmem5
      by_cases hs : argsFilename.isSome = true
      swap
      · intro st3 r h
        simp only [if_neg hs, pipeThen_ok] at h
        exact hmain st2 ⟨[], [], by simp, by simp, fun _ g => by simp⟩ st3 r h
      by_cases hj : options.useJit = true
      · cases hc4 : procEvalCall env st2 "sample.opt.ir" true argsBatch irChannelNames
            "evaluated opt IR (JIT)" with
        | mk st4 r4 =>
            obtain ⟨lt4, lw4, ht4, hw4, hsh4⟩ := procEvalCall_extends env st2
              "sample.opt.ir" true argsBatch irChannelNames "evaluated opt IR (JIT)"
              st4 r4 hc4
            cases r4 with
            | error e =>
                intro st3 r h
                simp only [if_pos hs, if_pos hj, hc4, pipeThen_error] at h
                cases h
                refine ⟨[.optimizeIrAction "sample.ir"] ++ lt4,
                  [("sample.opt.ir", optText)] ++ lw4, ?_, ?_, ?_⟩
                · rw [ht4, ht2]
                  simp
                · rw [hw4, hw2]
                  simp
                · intro hf
                  rw [hf] at hj
                  simp at hj
            | ok u =>
                cases u
                cases hc5 : procEvalCall env st4 "sample.opt.ir" false argsBatch
                    irChannelNames "evaluated opt IR (interpreter)" with
                | mk st5 r5 =>
                    obtain ⟨lt5, lw5, ht5, hw5, hsh5⟩ := procEvalCall_extends env st4
                      "sample.opt.ir" false argsBatch irChannelNames
                      "evaluated opt IR (interpreter)" st5 r5 hc5
                    cases r5 with
                    | error e =>
                        intro st3 r h
                        simp only [if_pos hs, if_pos hj, hc4, pipeThen_ok, hc5,
                          pipeThen_error] at h
                        cases h
                        refine ⟨[.optimizeIrAction "sample.ir"] ++ lt4 ++ lt5,
                          [("sample.opt.ir", optText)] ++ lw4 ++ lw5, ?_, ?_, ?_⟩
                        · rw [ht5, ht4, ht2]
                          simp
                        · rw [hw5, hw4, hw2]
                          simp
                        · intro hf
                          rw [hf] at hj
                          simp at hj
                    | ok u =>
                        cases u
                        intro st3 r h
                        simp only [if_pos hs, if_pos hj, hc4, pipeThen_ok, hc5] at h
                        refine hmain st5 ⟨lt4 ++ lt5, lw4 ++ lw5, ?_, ?_, ?_⟩ st3 r h
                        · rw [ht5, ht4]
                          simp
                        · rw [hw5, hw4]
                          simp
                        · intro hf
                          rw [hf] at hj
                          simp at hj
      · cases hc4 : procEvalCall env st2 "sample.opt.ir" false argsBatch irChannelNames
            "evaluated opt IR (interpreter)" with
        | mk st4 r4 =>
            obtain ⟨lt4, lw4, ht4, hw4, hsh4⟩ := procEvalCall_extends env st2
              "sample.opt.ir" false argsBatch irChannelNames
              "evaluated opt IR (interpreter)" st4 r4 hc4
            have hnj4 : ∀ g, RunAction.evalIrProc g true ∉ lt4 := by
              intro g hmem
              rcases hsh4 with rfl | rfl
              · simp at hmem
              · simp at hmem
            cases r4 with
            | error e =>
                intro st3 r h
                simp only [if_pos hs, if_neg hj, hc4, pipeThen_error] at h
                cases h
                refine ⟨[.optimizeIrAction "sample.ir"] ++ lt4,
                  [("sample.opt.ir", optText)] ++ lw4, ?_, ?_, ?_⟩
                · rw [ht4, ht2]
                  simp
                · rw [hw4, hw2]
                  simp
                · intro hf g hmem
                  simp only [List.mem_append, List.mem_singleton] at hmem
                  rcases hmem with heq | hmem4
                  · cases heq
                  · exact hnj4 g hmem4
            | ok u =>
                cases u
                intro st3 r h
                simp only [if_pos hs, if_neg hj, hc4, pipeThen_ok] at h
                exact hmain st4 ⟨lt4, lw4, ht4, hw4, fun _ => hnj4⟩ st3 r h

theorem procUnoptEvalPhase_logs (env : Env) (options : SampleOptions) (f : String)
    (batch : ArgsBatch) (names : List String) (st : ProcState)
    (hrows : (batch.all fun row => row.length == names.length) = true) :
    ∀ st3 r, procUnoptEvalPhase env options (some f) (some batch) (some names) st =
        (st3, r) →
      RunAction.evalIrProc "sample.ir" false ∈ st3.trace := by
  unfold procUnoptEvalPhase
  cases hc1 : procEvalCall env st "sample.ir" false (some batch) (some names)
      "evaluated unopt IR (interpreter)" with
  | mk st1 r1 =>
      have hmem1 : RunAction.evalIrProc "sample.ir" false ∈ st1.trace := by
        unfold procEvalCall at hc1
        simp only [if_pos hrows] at hc1
        cases hov : env.evalIrProc "sample.ir" false with
        | error e =>
            rw [hov, stepRun_error] at hc1
            cases hc1
            simp
        | ok cm =>
            rw [hov, stepRun_ok] at hc1
            cases hc1
            simp
      cases r1 with
      | error e =>
          intro st3 r h
          simp only [Option.isSome_some, if_pos, hc1, pipeThen_error] at h
          cases h
          exact hmem1
      | ok u =>
          cases u
          by_cases hj : options.useJit = true
          · cases hc2 : procEvalCall env st1 "sample.ir" true (some batch) (some names)
                "evaluated unopt IR (JIT)" with
            | mk st2 r2 =>
                obtain ⟨lt2, lw2, ht2, hw2, hsh2⟩ := procEvalCall_extends env st1
                  "sample.ir" true (some batch) (some names) "evaluated unopt IR (JIT)"
                  st2 r2 hc2
                intro st3 r h
                simp only [Option.isSome_some, if_pos, hc1, pipeThen_ok, if_pos hj,
                  hc2] at h
                cases h
                rw [ht2]
                exact List.mem_append_left _ hmem1
          · intro st3 r h
            simp only [Option.isSome_some, if_pos, hc1, pipeThen_ok, if_neg hj] at h
            cases h
            exact hmem1

/-- **C7.** In both function and proc mode, whenever the pipeline reaches
the unoptimized-IR evaluation point with an args file present (input
reading and the DSLX/conversion phase completed without an early return),
the unoptimized IR is evaluated with the interpreter backend — regardless
of `use_jit` (the options are arbitrary); and when `use_jit` is false no
IR evaluation with the JIT backend is ever invoked anywhere in either
pipeline. -/
theorem c7_unopt_interpreter_eval (env : Env) (options : SampleOptions) (f : String)
    (chF pivF : Option String) :
    (∀ st1 st2 ab,
      fnReadArgs env (some f) ⟨[], [], []⟩ = (st1, .ok ab) →
      fnDslxPhase env options ab st1 = (st2, .ok true) →
      RunAction.evalIrFunction "sample.ir" false ∈
        (runFunctionPipeline env options (some f)).1.trace) ∧
    (options.useJit = false → ∀ alist g,
      RunAction.evalIrFunction g true ∉
        (runFunctionPipeline env options alist).1.trace) ∧
    (∀ st1 st2 batch names piv,
      procReadInputs env (some f) chF pivF ⟨[], [], []⟩ =
        (st1, .ok (some batch, some names, piv)) →
      procDslxPhase env options (some batch) piv st1 = (st2, .ok true) →
      (batch.all fun row => row.length == names.length) = true →
      RunAction.evalIrProc "sample.ir" false ∈
        (runProcPipeline env options (some f) chF pivF).1.trace) ∧
    (options.useJit = false → ∀ alist chF2 pivF2 g,
      RunAction.evalIrProc g true ∉
        (runProcPipeline env options alist chF2 pivF2).1.trace) := by
  refine ⟨?_, ?_, ?_, ?_⟩
  · intro st1 st2 ab h1 h2
    unfold runFunctionPipeline
    simp only [h1, h2]
    cases h3 : fnUnoptEvalPhase env options (some f) st2 with
    | mk st3 r3 =>
        have hmem3 := fnUnoptEvalPhase_logs env options f st2 st3 r3 h3
        cases r3 with
        | error e => simpa using hmem3
        | ok u =>
            cases u
            cases h4 : fnOptPhase env options (some f) st3 with
            | mk st4 r4 =>
                obtain ⟨lt4, lw4, ht4, _, _⟩ :=
                  fnOptPhase_extends env options (some f) st3 st4 r4 h4
                have hmem4 : RunAction.evalIrFunction "sample.ir" false ∈ st4.trace := by
                  rw [ht4]
                  exact List.mem_append_left _ hmem3
                cases r4 with
                | error e => simpa only [h4] using hmem4
                | ok u =>
                    cases u
                    simpa only [h4] using hmem4
  · intro hj alist g
    unfold runFunctionPipeline
    cases h1 : fnReadArgs env alist ⟨[], [], []⟩ with
    | mk st1 r1 =>
        have hst1 : st1 = ⟨[], [], []⟩ := fnReadArgs_state env alist _ st1 r1 h1
        have htr1 : st1.trace = [] := by rw [hst1]
        cases r1 with
        | error e => simp [htr1]
        | ok ab =>
            cases h2 : fnDslxPhase env options ab st1 with
            | mk st2 r2 =>
                obtain ⟨lt2, lw2, ht2, _, hnj2⟩ :=
                  fnDslxPhase_extends env options ab st1 st2 r2 h2
                have hm2 : RunAction.evalIrFunction g true ∉ st2.trace := by
                  rw [ht2, htr1]
                  simpa using hnj2 g true
                cases r2 with
                | error e => simpa only [h2] using hm2
                | ok b =>
                    cases b with
                    | false => simpa only [h2] using hm2
                    | true =>
                        cases h3 : fnUnoptEvalPhase env options alist st2 with
                        | mk st3 r3 =>
                            obtain ⟨lt3, lw3, ht3, _, hnj3⟩ :=
                              fnUnoptEvalPhase_extends env options alist st2 st3 r3 h3
                            have hm3 : RunAction.evalIrFunction g true ∉ st3.trace := by
                              rw [ht3]
                              intro hmem
                              rcases List.mem_append.mp hmem with hx | hx
                              · exact hm2 hx
                              · exact hnj3 hj g hx
                            cases r3 with
                            | error e => simpa only [h2, h3] using hm3
                            | ok u =>
                                cases u
                                cases h4 : fnOptPhase env options alist st3 with
                                | mk st4 r4 =>
                                    obtain ⟨lt4, lw4, ht4, _, hnj4⟩ :=
                                      fnOptPhase_extends env options alist st3 st4 r4 h4
                                    have hm4 : RunAction.evalIrFunction g true ∉
                                        st4.trace := by
                                      rw [ht4]
                                      intro hmem
                                      rcases List.mem_append.mp hmem with hx | hx
                                      · exact hm3 hx
                                      · exact hnj4 hj g hx
                                    cases r4 with
                                    | error e => simpa only [h2, h3, h4] using hm4
                                    | ok u =>
                                        cases u
                                        simpa only [h2, h3, h4] using hm4
  · intro st1 st2 batch names piv h1 h2 hrows
    unfold runProcPipeline
    simp only [h1, h2]
    cases h3 : procUnoptEvalPhase env options (some f) (some batch) (some names) st2 with
    | mk st3 r3 =>
        have hmem3 := procUnoptEvalPhase_logs env options f batch names st2 hrows
          st3 r3 h3
        cases r3 with
        | error e => simpa using hmem3
        | ok u =>
            cases u
            cases h4 : procOptPhase env options (some f) (some batch) (some names) st3 with
            | mk st4 r4 =>
                obtain ⟨lt4, lw4, ht4, _, _⟩ := procOptPhase_extends env options (some f)
                  (some batch) (some names) st3 st4 r4 h4
                have hmem4 : RunAction.evalIrProc "sample.ir" false ∈ st4.trace := by
                  rw [ht4]
                  exact List.mem_append_left _ hmem3
                cases r4 with
                | error e => simpa only [h4] using hmem4
                | ok u =>
                    cases u
                    simpa only [h4] using hmem4
  · intro hj alist chF2 pivF2 g
    unfold runProcPipeline
    cases h1 : procReadInputs env alist chF2 pivF2 ⟨[], [], []⟩ with
    | mk st1 r1 =>
        have hst1 : st1 = ⟨[], [], []⟩ :=
          procReadInputs_state env alist chF2 pivF2 _ st1 r1 h1
        have htr1 : st1.trace = [] := by rw [hst1]
        cases r1 with
        | error e => simp [htr1]
        | ok abp =>
            obtain ⟨ab, chs, piv⟩ := abp
            cases h2 : procDslxPhase env options ab piv st1 with
            | mk st2 r2 =>
                obtain ⟨lt2, lw2, ht2, _, hnj2⟩ :=
                  procDslxPhase_extends env options ab piv st1 st2 r2 h2
                have hm2 : RunAction.evalIrProc g true ∉ st2.trace := by
                  rw [ht2, htr1]
                  simpa using hnj2 g true
                cases r2 with
                | error e => simpa only [h2] using hm2
                | ok b =>
                    cases b with
                    | false => simpa only [h2] using hm2
                    | true =>
                        cases h3 : procUnoptEvalPhase env options alist ab chs st2 with
                        | mk st3 r3 =>
                            obtain ⟨lt3, lw3, ht3, _, hnj3⟩ :=
                              procUnoptEvalPhase_extends env options alist ab chs st2
                                st3 r3 h3
                            have hm3 : RunAction.evalIrProc g true ∉ st3.trace := by
                              rw [ht3]
                              intro hmem
                              rcases List.mem_append.mp hmem with hx | hx
                              · exact hm2 hx
                              · exact hnj3 hj g hx
                            cases r3 with
                            | error e => simpa only [h2, h3] using hm3
                            | ok u =>
                                cases u
                                cases h4 : procOptPhase env options alist ab chs st3 with
                                | mk st4 r4 =>
                                    obtain ⟨lt4, lw4, ht4, _, hnj4⟩ :=
                                      procOptPhase_extends env options alist ab chs
                                        st3 st4 r4 h4
                                    have hm4 : RunAction.evalIrProc g true ∉
                                        st4.trace := by
                                      rw [ht4]
                                      intro hmem
                                      rcases List.mem_append.mp hmem with hx | hx
                                      · exact hm3 hx
                                      · exact hnj4 hj g hx
                                    cases r4 with
                                    | error e => simpa only [h2, h3, h4] using hm4
                                    | ok u =>
                                        cases u
                                        simpa only [h2, h3, h4] using hm4

/-- **C9.** For every run whose input is not DSLX, the `convert_to_ir`
flag has no effect: both stage pipelines and the whole `run_from_files`
result are identical for any two values of the flag, the input text is
written as `sample.ir` (once the input files are read successfully), and
the early successful return never happens — it is reserved for DSLX
input. -/
theorem c9_convert_to_ir_without_dslx (env : Env) (options : SampleOptions)
    (argsFilename chF pivF : Option String) (b1 b2 : Bool)
    (h : options.inputIsDslx = false) :
    (runFunctionPipeline env { options with convertToIr := b1 } argsFilename =
      runFunctionPipeline env { options with convertToIr := b2 } argsFilename) ∧
    (runProcPipeline env { options with convertToIr := b1 } argsFilename chF pivF =
      runProcPipeline env { options with convertToIr := b2 } argsFilename chF pivF) ∧
    (runFromFiles env { options with convertToIr := b1 } argsFilename chF pivF =
      runFromFiles env { options with convertToIr := b2 } argsFilename chF pivF) ∧
    (runFunctionPipeline env options argsFilename).2 ≠ .ok .earlyReturn ∧
    (runProcPipeline env options argsFilename chF pivF).2 ≠ .ok .earlyReturn ∧
    (∀ st ab, fnReadArgs env argsFilename ⟨[], [], []⟩ = (st, .ok ab) →
      ("sample.ir", env.inputText) ∈
        (runFunctionPipeline env options argsFilename).1.writes) ∧
    (∀ st abp, procReadInputs env argsFilename chF pivF ⟨[], [], []⟩ = (st, .ok abp) →
      ("sample.ir", env.inputText) ∈
        (runProcPipeline env options argsFilename chF pivF).1.writes) := by
  obtain ⟨tt, dslx, c, opt, jit, cg, sim, sv⟩ := options
  have hd : dslx = false := h
  subst hd
  refine ⟨rfl, rfl, rfl, ?_, ?_, ?_, ?_⟩
  · unfold runFunctionPipeline
    cases h1 : fnReadArgs env argsFilename ⟨[], [], []⟩ with
    | mk st1 r1 =>
        cases r1 with
        | error e => simp
        | ok ab =>
            have h2 : fnDslxPhase env ⟨tt, false, c, opt, jit, cg, sim, sv⟩ ab st1 =
              (st1.write "sample.ir" env.inputText, .ok true) := rfl
            cases h3 : fnUnoptEvalPhase env ⟨tt, false, c, opt, jit, cg, sim, sv⟩
                argsFilename (st1.write "sample.ir" env.inputText) with
            | mk st3 r3 =>
                cases r3 with
                | error e => simp only [h2, h3]; simp
                | ok u =>
                    cases u
                    cases h4 : fnOptPhase env ⟨tt, false, c, opt, jit, cg, sim, sv⟩
                        argsFilename st3 with
                    | mk st4 r4 =>
                        cases r4 with
                        | error e => simp only [h2, h3, h4]; simp
                        | ok u =>
                            cases u
                            simp only [h2, h3, h4]
                            simp
  · unfold runProcPipeline
    cases h1 : procReadInputs env argsFilename chF pivF ⟨[], [], []⟩ with
    | mk st1 r1 =>
        cases r1 with
        | error e => simp
        | ok abp =>
            obtain ⟨ab, chs, piv⟩ := abp
            have h2 : procDslxPhase env ⟨tt, false, c, opt, jit, cg, sim, sv⟩ ab piv st1 =
              (st1.write "sample.ir" env.inputText, .ok true) := rfl
            cases h3 : procUnoptEvalPhase env ⟨tt, false, c, opt, jit, cg, sim, sv⟩
                argsFilename ab chs (st1.write "sample.ir" env.inputText) with
            | mk st3 r3 =>
                cases r3 with
                | error e => simp only [h2, h3]; simp
                | ok u =>
                    cases u
                    cases h4 : procOptPhase env ⟨tt, false, c, opt, jit, cg, sim, sv⟩
                        argsFilename ab chs st3 with
                    | mk st4 r4 =>
                        cases r4 with
                        | error e => simp only [h2, h3, h4]; simp
                        | ok u =>
                            cases u
                            simp only [h2, h3, h4]
                            simp
  · intro st ab h1
    unfold runFunctionPipeline
    simp only [h1]
    have h2 : fnDslxPhase env ⟨tt, false, c, opt, jit, cg, sim, sv⟩ ab st =
      (st.write "sample.ir" env.inputText, .ok true) := rfl
    simp only [h2]
    have hmem2 : ("sample.ir", env.inputText) ∈
        (st.write "sample.ir" env.inputText).writes := by
      simp
    cases h3 : fnUnoptEvalPhase env ⟨tt, false, c, opt, jit, cg, sim, sv⟩ argsFilename
        (st.write "sample.ir" env.inputText) with
    | mk st3 r3 =>
        obtain ⟨lt3, lw3, _, hw3, _⟩ := fnUnoptEvalPhase_extends env
          ⟨tt, false, c, opt, jit, cg, sim, sv⟩ argsFilename
          (st.write "sample.ir" env.inputText) st3 r3 h3
        have hmem3 : ("sample.ir", env.inputText) ∈ st3.writes := by
          rw [hw3]
          exact List.mem_append_left _ hmem2
        cases r3 with
        | error e => simpa using hmem3
        | ok u =>
            cases u
            cases h4 : fnOptPhase env ⟨tt, false, c, opt, jit, cg, sim, sv⟩ argsFilename
                st3 with
            | mk st4 r4 =>
                obtain ⟨lt4, lw4, _, hw4, _⟩ := fnOptPhase_extends env
                  ⟨tt, false, c, opt, jit, cg, sim, sv⟩ argsFilename st3 st4 r4 h4
                have hmem4 : ("sample.ir", env.inputText) ∈ st4.writes := by
                  rw [hw4]
                  exact List.mem_append_left _ hmem3
                cases r4 with
                | error e => simpa only [h4] using hmem4
                | ok u =>
                    cases u
                    simpa only [h4] using hmem4
  · intro st abp h1
    obtain ⟨ab, chs, piv⟩ := abp
    unfold runProcPipeline
    simp only [h1]
    have h2 : procDslxPhase env ⟨tt, false, c, opt, jit, cg, sim, sv⟩ ab piv st =
      (st.write "sample.ir" env.inputText, .ok true) := rfl
    simp only [h2]
    have hmem2 : ("sample.ir", env.inputText) ∈
        (st.write "sample.ir" env.inputText).writes := by
      simp
    cases h3 : procUnoptEvalPhase env ⟨tt, false, c, opt, jit, cg, sim, sv⟩ argsFilename
        ab chs (st.write "sample.ir" env.inputText) with
    | mk st3 r3 =>
        obtain ⟨lt3, lw3, _, hw3, _⟩ := procUnoptEvalPhase_extends env
          ⟨tt, false, c, opt, jit, cg, sim, sv⟩ argsFilename ab chs
          (st.write "sample.ir" env.inputText) st3 r3 h3
        have hmem3 : ("sample.ir", env.inputText) ∈ st3.writes := by
          rw [hw3]
          exact List.mem_append_left _ hmem2
        cases r3 with
        | error e => simpa using hmem3
        | ok u =>
            cases u
            cases h4 : procOptPhase env ⟨tt, false, c, opt, jit, cg, sim, sv⟩ argsFilename
                ab chs st3 with
            | mk st4 r4 =>
                obtain ⟨lt4, lw4, _, hw4, _⟩ := procOptPhase_extends env
                  ⟨tt, false, c, opt, jit, cg, sim, sv⟩ argsFilename ab chs st3 st4 r4 h4
                have hmem4 : ("sample.ir", env.inputText) ∈ st4.writes := by
                  rw [hw4]
                  exact List.mem_append_left _ hmem3
                cases r4 with
                | error e => simpa only [h4] using hmem4
                | ok u =>
                    cases u
                    simpa only [h4] using hmem4

/-- **C10.** In function mode with `optimize_ir`, `codegen` and `simulate`
all enabled but no args file supplied, the run does not silently skip
simulation: provided the pipeline reaches the simulation point (conversion
when the input is DSLX, optimization and codegen all succeed), the
`assert args_filename is not None` fails, and `run_from_files` surfaces
the unified error — with the empty message of a bare assert and
`is_timeout` false — instead of completing successfully. -/
theorem c10_simulate_without_args (env : Env) (options : SampleOptions)
    (chF pivF : Option String)
    (htop : options.topType = .function)
    (ho : options.optimizeIr = true) (hcg : options.codegen = true)
    (hsim : options.simulate = true)
    (hdslx : options.inputIsDslx = true →
      options.convertToIr = true ∧ ∃ t, env.dslxToIrFunction = .ok t)
    (hoptE : ∃ t, env.optimizeIr = .ok t)
    (hcgE : ∃ t, env.runCodegen = .ok t) :
    (runFunctionPipeline env options none).2 = .error .assertionError ∧
    (runFromFiles env options none chF pivF).outcome = .error ⟨"", false⟩ ∧
    (runFromFiles env options none chF pivF).compared = false := by
  obtain ⟨optText, hoptE⟩ := hoptE
  obtain ⟨verilogText, hcgE⟩ := hcgE
  have h1 : fnReadArgs env none (⟨[], [], []⟩ : FnState) = (⟨[], [], []⟩, .ok none) := rfl
  have h2 : ∃ st2, fnDslxPhase env options none ⟨[], [], []⟩ = (st2, .ok true) := by
    by_cases hd : options.inputIsDslx = true
    · obtain ⟨hconv, t, ht⟩ := hdslx hd
      refine ⟨(PipeState.act ⟨[], [], []⟩ .convertDslxToIr).write "sample.ir" t, ?_⟩
      unfold fnDslxPhase
      have hb : batchTruthy none = false := rfl
      simp only [if_pos hd, hb, Bool.false_eq_true, if_false, pipeThen_ok, hconv,
        Bool.not_true, ht, stepRun_ok]
    · refine ⟨PipeState.write ⟨[], [], []⟩ "sample.ir" env.inputText, ?_⟩
      unfold fnDslxPhase
      rw [if_neg hd]
  obtain ⟨st2, h2⟩ := h2
  have h3 : fnUnoptEvalPhase env options none st2 = (st2, .ok ()) := by
    unfold fnUnoptEvalPhase
    simp
  have h4 : (fnOptPhase env options none st2).2 = .error .assertionError := by
    unfold fnOptPhase fnCodegenPhase
    simp only [if_pos ho, hoptE, stepRun_ok, Option.isSome_none, Bool.false_eq_true,
      if_false, pipeThen_ok, if_pos hcg, hcgE, if_pos hsim]
  have hpipe : (runFunctionPipeline env options none).2 = .error .assertionError := by
    unfold runFunctionPipeline
    simp only [h1, h2, h3]
    cases h4c : fnOptPhase env options none st2 with
    | mk st4 r4 =>
        rw [h4c] at h4
        simp only at h4
        subst h4
        simp
  refine ⟨hpipe, ?_, ?_⟩
  · unfold runFromFiles
    rw [htop]
    unfold runFunctionStage
    cases hp : runFunctionPipeline env options none with
    | mk stp rp =>
        rw [hp] at hpipe
        simp only at hpipe
        subst hpipe
        rfl
  · unfold runFromFiles
    rw [htop]
    unfold runFunctionStage
    cases hp : runFunctionPipeline env options none with
    | mk stp rp =>
        rw [hp] at hpipe
        simp only at hpipe
        subst hpipe
        rfl

/-- Concrete instantiation of the C7 theorem on `testEnv`: the
interpreter-backed unoptimized evaluation is logged in both pipelines even
with `use_jit` on, and with `use_jit` off no JIT-backed evaluation is
logged in either pipeline. -/
theorem c7_unopt_interpreter_eval_witness :
    RunAction.evalIrFunction "sample.ir" false ∈
      (runFunctionPipeline testEnv ⟨.function, false, true, false, true, false, false, false⟩
        (some "args.txt")).1.trace ∧
    RunAction.evalIrProc "sample.ir" false ∈
      (runProcPipeline testEnv ⟨.proc, false, true, false, true, false, false, false⟩
        (some "args.txt") (some "ch.txt") none).1.trace ∧
    RunAction.evalIrFunction "sample.ir" true ∉
      (runFunctionPipeline testEnv ⟨.function, false, true, false, false, false, false, false⟩
        (some "args.txt")).1.trace ∧
    RunAction.evalIrProc "sample.ir" true ∉
      (runProcPipeline testEnv ⟨.proc, false, true, false, false, false, false, false⟩
        (some "args.txt") (some "ch.txt") none).1.trace := by
  refine ⟨?_, ?_, ?_, ?_⟩
  · exact (c7_unopt_interpreter_eval testEnv
      ⟨.function, false, true, false, true, false, false, false⟩ "args.txt"
      (some "ch.txt") none).1 _ _ _ rfl rfl
  · exact (c7_unopt_interpreter_eval testEnv
      ⟨.proc, false, true, false, true, false, false, false⟩ "args.txt"
      (some "ch.txt") none).2.2.1 _ _ _ _ _ rfl rfl (by decide)
  · exact (c7_unopt_interpreter_eval testEnv
      ⟨.function, false, true, false, false, false, false, false⟩ "args.txt"
      (some "ch.txt") none).2.1 rfl (some "args.txt") "sample.ir"
  · exact (c7_unopt_interpreter_eval testEnv
      ⟨.proc, false, true, false, false, false, false, false⟩ "args.txt"
      (some "ch.txt") none).2.2.2 rfl (some "args.txt") (some "ch.txt") none "sample.ir"

/-- Concrete instantiation of the C9 theorem on `testEnv`: with non-DSLX
input, flipping `convert_to_ir` leaves `run_from_files` unchanged and the
input text is written as `sample.ir`. -/
theorem c9_convert_to_ir_without_dslx_witness :
    runFromFiles testEnv ⟨.function, false, true, true, false, false, false, false⟩
        (some "args.txt") (some "ch.txt") none =
      runFromFiles testEnv ⟨.function, false, false, true, false, false, false, false⟩
        (some "args.txt") (some "ch.txt") none ∧
    ("sample.ir", testEnv.inputText) ∈
      (runFunctionPipeline testEnv ⟨.function, false, true, true, false, false, false, false⟩
        (some "args.txt")).1.writes ∧
    ("sample.ir", testEnv.inputText) ∈
      (runProcPipeline testEnv ⟨.function, false, true, true, false, false, false, false⟩
        (some "args.txt") (some "ch.txt") none).1.writes := by
  have h := c9_convert_to_ir_without_dslx testEnv
    ⟨.function, false, true, true, false, false, false, false⟩
    (some "args.txt") (some "ch.txt") none true false rfl
  exact ⟨h.2.2.1, h.2.2.2.2.2.1 _ _ rfl, h.2.2.2.2.2.2 _ _ rfl⟩

/-- Concrete instantiation of the C10 theorem on `testEnv`: function mode
with optimization, codegen and simulation enabled but no args file ends in
the bare-assert error with the empty message and `is_timeout` false. -/
theorem c10_simulate_without_args_witness :
    (runFunctionPipeline testEnv
        ⟨.function, false, false, true, false, true, true, false⟩ none).2 =
      .error .assertionError ∧
    (runFromFiles testEnv ⟨.function, false, false, true, false, true, true, false⟩
        none none none).outcome = .error ⟨"", false⟩ ∧
    (runFromFiles testEnv ⟨.function, false, false, true, false, true, true, false⟩
        none none none).compared = false :=
  c10_simulate_without_args testEnv
    ⟨.function, false, false, true, false, true, true, false⟩ none none
    rfl rfl rfl rfl (fun hd => absurd hd (by decide)) ⟨"opt", rfl⟩ ⟨"v", rfl⟩
